import Mathlib

/-!
# A line-oriented BASIC interpreter: program store, statements and run driver

Shallow embedding of `Basic.cpp`, `program.cpp` and `statement.cpp`.

* A thrown `ErrorException` is modelled by returning the message next to the
  state as it stands at the moment of the throw, so that mutations made before
  a throw stay visible, as they do with C++ references.
* Deleting the same object twice is undefined behaviour; it is a third result,
  `crash`, apart from a value and a thrown error, and after it nothing of the
  session is left to observe.
* `std::cout` is the string of all characters written so far, `std::cin` the
  list of lines not yet read.
* The C++ `int` is modelled by `Int`; line numbers come from digit runs, so
  they are never negative.
* The token scanner, the expression parser, the expression evaluator, the
  evaluation state and `strlib` are not part of the available sources; they
  are modelled from the specification and marked as such.
-/

namespace Basic

/-! ## Errors -/

/-- The message carried by an `ErrorException`. -/
abbrev ErrorMsg := String

/-! ## Token scanner (`Utils/tokenScanner.hpp`) -/

/-- Token classes returned by `getTokenType`. -/
inductive TokenType where
  | EOF
  | WORD
  | NUMBER
  | OPERATOR
  deriving DecidableEq, Repr

/-- Modelled from the spec: the token scanner is missing from the sources.
A pending run of characters becomes one token when the run ends. -/
def flushToken (cur : List Char) : List String :=
  match cur with
  | [] => []
  | c :: cs => [String.mk (c :: cs)]

/-- Modelled from the spec: the token scanner is missing from the sources.
"Numbers are maximal digit runs; identifiers are maximal alphanumeric runs
starting non-digit; single-character tokens cover `+ - * / ( ) = < >`;
whitespace is skipped between tokens."  `cur` is the run being read and `num`
tells whether that run is a number.  Every other character is cut out as a
token of its own; `nextToken` rejects it when the cursor reaches it. -/
def scanChars : List Char → List Char → Bool → List String
  | [], cur, _ => flushToken cur
  | c :: cs, cur, num =>
    if c.isWhitespace then flushToken cur ++ scanChars cs [] false
    else if c.isDigit then
      match cur with
      | [] => scanChars cs [c] true
      | _ :: _ => scanChars cs (cur ++ [c]) num
    else if c.isAlpha then
      match cur, num with
      | _ :: _, true => flushToken cur ++ scanChars cs [c] false
      | _, _ => scanChars cs (cur ++ [c]) false
    else flushToken cur ++ String.singleton c :: scanChars cs [] false

/-- Modelled from the spec: the token scanner is missing from the sources.
The scanner after `ignoreWhitespace`, `scanNumbers` and `setInput`: the tokens
that lie after the cursor. -/
abbrev TokenScanner := List String

/-- Modelled from the spec: `setInput` on a scanner configured with
`ignoreWhitespace` and `scanNumbers`. -/
def setInput (line : String) : TokenScanner :=
  scanChars line.data [] false

/-- Modelled from the spec: the kind of a token is decided by its first
character, independently of the cursor. -/
def getTokenType (tok : String) : TokenType :=
  match tok.data with
  | [] => TokenType.EOF
  | c :: _ =>
    if c.isDigit then TokenType.NUMBER
    else if c.isAlpha then TokenType.WORD
    else TokenType.OPERATOR

/-- Modelled from the spec: the single-character tokens of the language. -/
def isOperatorToken (tok : String) : Bool :=
  tok = "+" || tok = "-" || tok = "*" || tok = "/" || tok = "(" || tok = ")"
    || tok = "=" || tok = "<" || tok = ">"

/-- Modelled from the spec: a token made of a character that is neither
alphanumeric nor one of the single-character tokens. -/
def isUnrecognized (tok : String) : Bool :=
  getTokenType tok = TokenType.OPERATOR && !isOperatorToken tok

/-- Modelled from the spec: `nextToken` returns the empty string at the end of
the input and "fails with a SyntaxError classification if an unrecognized
character is encountered". -/
def nextToken (scanner : TokenScanner) : Except ErrorMsg (String × TokenScanner) :=
  match scanner with
  | [] => .ok ("", [])
  | tok :: rest =>
    if isUnrecognized tok then .error "SYNTAX ERROR" else .ok (tok, rest)

/-- Modelled from the spec: `hasMoreTokens` tells whether the cursor has not
reached the end of the input. -/
def hasMoreTokens (scanner : TokenScanner) : Bool :=
  match scanner with
  | [] => false
  | _ :: _ => true

/-! ## String library (`Utils/strlib.hpp`) -/

/-- Modelled from the spec: value of a run of decimal digits, `none` when the
run is empty or holds another character. -/
def digitsToNat : List Char → Nat → Option Nat
  | [], acc => some acc
  | c :: cs, acc =>
    if c.isDigit then digitsToNat cs (acc * 10 + (c.toNat - 48)) else none

/-- Modelled from the spec: `stringToInteger` "parses as integer": an optional
minus sign followed by a non-empty digit run; anything else is an error.  The
range of `int` is not modelled. -/
def stringToInteger (str : String) : Option Int :=
  match str.data with
  | [] => none
  | '-' :: c :: cs => (digitsToNat (c :: cs) 0).map (fun n => - (n : Int))
  | c :: cs => (digitsToNat (c :: cs) 0).map (fun n => (n : Int))

/-- Modelled from the spec: `trim` removes the white space at both ends. -/
def trim (str : String) : String :=
  String.mk ((str.data.dropWhile Char.isWhitespace).reverse.dropWhile Char.isWhitespace).reverse

/-! ## Evaluation state (`evalstate.hpp`) -/

/-- Modelled from the spec: "mapping from variable name to integer value, keys
unique". -/
abbrev EvalState := List (String × Int)

/-- Modelled from the spec: the value bound to a variable, if any. -/
def EvalState.getValue (state : EvalState) (var : String) : Option Int :=
  match state with
  | [] => none
  | (k, v) :: rest => if k = var then some v else EvalState.getValue rest var

/-- Modelled from the spec: bind a variable, dropping any older binding. -/
def EvalState.setValue (state : EvalState) (var : String) (value : Int) : EvalState :=
  (var, value) :: state.filter (fun e => decide (e.1 ≠ var))

/-- Modelled from the spec: "reset to empty only by an explicit clear
operation". -/
def EvalState.Clear (_state : EvalState) : EvalState := []

/-! ## Expressions (`exp.hpp`) -/

/-- Modelled from the spec: "polymorphic over variants Constant(integer),
Identifier(name), Compound(operator, left, right)". -/
inductive Expression where
  | Constant (value : Int)
  | Identifier (name : String)
  | Compound (op : String) (lhs rhs : Expression)
  deriving DecidableEq, Repr

/-- Modelled from the spec: the arithmetic of a `Compound` node.  "Division
truncates toward zero; division by zero fails with a RuntimeError". -/
def applyOp (op : String) (a b : Int) : Except ErrorMsg Int :=
  if op = "+" then .ok (a + b)
  else if op = "-" then .ok (a - b)
  else if op = "*" then .ok (a * b)
  else if op = "/" then
    if b = 0 then .error "DIVIDE BY ZERO" else .ok (Int.tdiv a b)
  else .error "SYNTAX ERROR"

/-- Modelled from the spec: the evaluator.  An identifier that is not bound
fails with "VARIABLE NOT DEFINED"; a `Compound` with operator `=` "evaluates
the right side, stores it into the evaluation state keyed by the left
Identifier's name, and yields that value"; the other operators evaluate the
left side, then the right side.  The state is returned also on failure. -/
def Expression.eval : Expression → EvalState → Except ErrorMsg Int × EvalState
  | .Constant v, state => (.ok v, state)
  | .Identifier name, state =>
    match state.getValue name with
    | some v => (.ok v, state)
    | none => (.error "VARIABLE NOT DEFINED", state)
  | .Compound op lhs rhs, state =>
    if op = "=" then
      match lhs with
      | .Identifier name =>
        match rhs.eval state with
        | (.ok v, s1) => (.ok v, s1.setValue name v)
        | (.error e, s1) => (.error e, s1)
      | _ => (.error "SYNTAX ERROR", state)
    else
      match lhs.eval state with
      | (.error e, s1) => (.error e, s1)
      | (.ok a, s1) =>
        match rhs.eval s1 with
        | (.error e, s2) => (.error e, s2)
        | (.ok b, s2) => (applyOp op a b, s2)

/-! ## Expression parser (`parser.hpp`) -/

mutual

/-- Modelled from the spec: `assignExpr := IDENTIFIER '=' assignExpr | addExpr`.
The first argument bounds the depth of the recursion. -/
def parseAssign : Nat → List String → Except ErrorMsg (Expression × List String)
  | 0, _ => .error "SYNTAX ERROR"
  | fuel + 1, toks =>
    match toks with
    | t :: "=" :: rest =>
      if getTokenType t = TokenType.WORD then
        match parseAssign fuel rest with
        | .ok (r, rest1) => .ok (Expression.Compound "=" (Expression.Identifier t) r, rest1)
        | .error e => .error e
      else parseAdd fuel toks
    | _ => parseAdd fuel toks

/-- Modelled from the spec: `addExpr := mulExpr (('+'|'-') mulExpr)*`. -/
def parseAdd : Nat → List String → Except ErrorMsg (Expression × List String)
  | 0, _ => .error "SYNTAX ERROR"
  | fuel + 1, toks =>
    match parseMul fuel toks with
    | .ok (l, rest) => parseAddRest fuel l rest
    | .error e => .error e

/-- Modelled from the spec: the left-associative tail of `addExpr`. -/
def parseAddRest : Nat → Expression → List String → Except ErrorMsg (Expression × List String)
  | 0, _, _ => .error "SYNTAX ERROR"
  | fuel + 1, l, toks =>
    match toks with
    | op :: rest =>
      if op = "+" || op = "-" then
        match parseMul fuel rest with
        | .ok (r, rest1) => parseAddRest fuel (Expression.Compound op l r) rest1
        | .error e => .error e
      else .ok (l, toks)
    | [] => .ok (l, toks)

/-- Modelled from the spec: `mulExpr := unary (('*'|'/') unary)*`. -/
def parseMul : Nat → List String → Except ErrorMsg (Expression × List String)
  | 0, _ => .error "SYNTAX ERROR"
  | fuel + 1, toks =>
    match parsePrimary fuel toks with
    | .ok (l, rest) => parseMulRest fuel l rest
    | .error e => .error e

/-- Modelled from the spec: the left-associative tail of `mulExpr`. -/
def parseMulRest : Nat → Expression → List String → Except ErrorMsg (Expression × List String)
  | 0, _, _ => .error "SYNTAX ERROR"
  | fuel + 1, l, toks =>
    match toks with
    | op :: rest =>
      if op = "*" || op = "/" then
        match parsePrimary fuel rest with
        | .ok (r, rest1) => parseMulRest fuel (Expression.Compound op l r) rest1
        | .error e => .error e
      else .ok (l, toks)
    | [] => .ok (l, toks)

/-- Modelled from the spec: `unary := primary`,
`primary := NUMBER | IDENTIFIER | '(' assignExpr ')'`. -/
def parsePrimary : Nat → List String → Except ErrorMsg (Expression × List String)
  | 0, _ => .error "SYNTAX ERROR"
  | fuel + 1, toks =>
    match toks with
    | [] => .error "SYNTAX ERROR"
    | t :: rest =>
      if getTokenType t = TokenType.NUMBER then
        match stringToInteger t with
        | some v => .ok (Expression.Constant v, rest)
        | none => .error "SYNTAX ERROR"
      else if getTokenType t = TokenType.WORD then .ok (Expression.Identifier t, rest)
      else if t = "(" then
        match parseAssign fuel rest with
        | .ok (e, ")" :: rest1) => .ok (e, rest1)
        | .ok _ => .error "SYNTAX ERROR"
        | .error e => .error e
      else .error "SYNTAX ERROR"

end

/-- Modelled from the spec: `parseExp` reads one expression from the scanner;
"parse failures (missing operand, unmatched parenthesis, trailing tokens) fail
with SyntaxError immediately at parse time".  The bound on the recursion is
taken from the number of tokens: between two tokens consumed the recursion
descends at most four levels. -/
def parseExp (scanner : TokenScanner) : Except ErrorMsg Expression :=
  match parseAssign (4 * scanner.length + 8) scanner with
  | .ok (e, []) => .ok e
  | .ok (_, _ :: _) => .error "SYNTAX ERROR"
  | .error e => .error e

/-! ## Statements (`statement.hpp`, `statement.cpp`) -/

/-- The seven statement classes with their private fields. -/
inductive Statement where
  | Rem
  | Let (exp_ : Expression)
  | Print (exp_ : Expression)
  | Input (var_ : String)
  | End
  | Goto (target_ : Int)
  | If (lhs_ rhs_ : Expression) (op_ : String) (target_ : Int)
  deriving DecidableEq, Repr

/-! ## Program store (`program.hpp`, `program.cpp`) -/

/-- The sentinel of `nextLineOverride_` meaning "not set". -/
def INT_MIN : Int := -2147483648

/-- Lookup in a map kept as a list of entries (`find`). -/
def mapFind {α : Type} (m : List (Int × α)) (key : Int) : Option α :=
  match m with
  | [] => none
  | (k, v) :: rest => if k = key then some v else mapFind rest key

/-- Assignment through `operator[]`: the entry is placed in ascending key order
and replaces an entry of the same key. -/
def mapInsert {α : Type} (m : List (Int × α)) (key : Int) (value : α) : List (Int × α) :=
  match m with
  | [] => [(key, value)]
  | (k, v) :: rest =>
    if key < k then (key, value) :: (k, v) :: rest
    else if key = k then (key, value) :: rest
    else (k, v) :: mapInsert rest key value

/-- Removal of a key (`erase`). -/
def mapErase {α : Type} (m : List (Int × α)) (key : Int) : List (Int × α) :=
  m.filter (fun e => decide (e.1 ≠ key))

/-- The private fields of `Program`: the ordered map of source lines, the map
of parsed statements and the next-line override of the RUN loop. -/
structure Program where
  sourceLines_ : List (Int × String)
  parsed_ : List (Int × Statement)
  nextLineOverride_ : Int
  deriving DecidableEq, Repr

/-- The default constructor: no line, override not set. -/
def Program.empty : Program :=
  { sourceLines_ := [], parsed_ := [], nextLineOverride_ := INT_MIN }

def Program.clearNextLineOverride (p : Program) : Program :=
  { p with nextLineOverride_ := INT_MIN }

def Program.setNextLineOverride (p : Program) (lineNumber : Int) : Program :=
  { p with nextLineOverride_ := lineNumber }

def Program.resolveNextLine (p : Program) (defaultNext : Int) : Int :=
  if p.nextLineOverride_ ≠ INT_MIN then p.nextLineOverride_ else defaultNext

def Program.clear (_p : Program) : Program :=
  { sourceLines_ := [], parsed_ := [], nextLineOverride_ := INT_MIN }

def Program.addSourceLine (p : Program) (lineNumber : Int) (line : String) : Program :=
  { p with
    sourceLines_ := mapInsert p.sourceLines_ lineNumber line
    parsed_ := mapErase p.parsed_ lineNumber }

def Program.removeSourceLine (p : Program) (lineNumber : Int) : Program :=
  { p with
    sourceLines_ := mapErase p.sourceLines_ lineNumber
    parsed_ := mapErase p.parsed_ lineNumber }

def Program.getSourceLine (p : Program) (lineNumber : Int) : String :=
  match mapFind p.sourceLines_ lineNumber with
  | none => ""
  | some line => line

def Program.setParsedStatement (p : Program) (lineNumber : Int) (stmt : Statement) : Program :=
  match mapFind p.sourceLines_ lineNumber with
  | none => p
  | some _ => { p with parsed_ := mapInsert p.parsed_ lineNumber stmt }

/-- The null pointer is `none`. -/
def Program.getParsedStatement (p : Program) (lineNumber : Int) : Option Statement :=
  mapFind p.parsed_ lineNumber

def Program.getFirstLineNumber (p : Program) : Int :=
  match p.sourceLines_ with
  | [] => -1
  | (k, _) :: _ => k

/-- The first entry, in map order, whose key is greater (`upper_bound`). -/
def Program.getNextLineNumber (p : Program) (lineNumber : Int) : Int :=
  match p.sourceLines_.find? (fun e => decide (lineNumber < e.1)) with
  | none => -1
  | some (k, _) => k

def Program.hasLine (p : Program) (lineNumber : Int) : Bool :=
  (mapFind p.sourceLines_ lineNumber).isSome

/-! ## Statement constructors (`statement.cpp`) -/

/-- How a call ends that may throw and may also free memory twice: it yields a
value, it throws an `ErrorException`, or its behaviour is undefined (the
process is lost). -/
inductive Result (α : Type) where
  | ok (value : α)
  | error (msg : ErrorMsg)
  | crash
  deriving DecidableEq, Repr

/-- A call that can only yield a value or throw. -/
def Result.ofExcept {α : Type} (r : Except ErrorMsg α) : Result α :=
  match r with
  | .ok a => .ok a
  | .error e => .error e

/-- The constructor `RemStatement::RemStatement`: the scanner is not read at all. -/
def RemStatement (_scanner : TokenScanner) : Except ErrorMsg Statement :=
  .ok Statement.Rem

/-- The constructor `LetStatement::LetStatement`: the expression must be a
`Compound` whose operator is `=`. -/
def LetStatement (scanner : TokenScanner) : Except ErrorMsg Statement :=
  match parseExp scanner with
  | .error e => .error e
  | .ok (Expression.Compound op lhs rhs) =>
    if op ≠ "=" then .error "SYNTAX ERROR"
    else .ok (Statement.Let (Expression.Compound op lhs rhs))
  | .ok _ => .error "SYNTAX ERROR"

/-- The constructor `PrintStatement::PrintStatement`. -/
def PrintStatement (scanner : TokenScanner) : Except ErrorMsg Statement :=
  match parseExp scanner with
  | .error e => .error e
  | .ok e => .ok (Statement.Print e)

/-- The reserved words of `isKeyword`. -/
def isKeyword (s : String) : Bool :=
  ["REM", "LET", "PRINT", "INPUT", "END", "GOTO", "IF", "THEN", "RUN", "LIST", "CLEAR",
    "QUIT", "HELP"].contains s

/-- The constructor `InputStatement::InputStatement`. -/
def InputStatement (scanner : TokenScanner) : Except ErrorMsg Statement :=
  match nextToken scanner with
  | .error e => .error e
  | .ok (t, scanner1) =>
    if t = "" then .error "SYNTAX ERROR"
    else if !(getTokenType t = TokenType.WORD || getTokenType t = TokenType.NUMBER) then
      .error "SYNTAX ERROR"
    else if isKeyword t then .error "SYNTAX ERROR"
    else if hasMoreTokens scanner1 then .error "SYNTAX ERROR"
    else .ok (Statement.Input t)

/-- The constructor `EndStatement::EndStatement`. -/
def EndStatement (scanner : TokenScanner) : Except ErrorMsg Statement :=
  if hasMoreTokens scanner then .error "SYNTAX ERROR" else .ok Statement.End

/-- The conversion of a token of class NUMBER.  Such a token is a digit run,
on which `stringToInteger` does not fail; the failure branch is kept as a
syntax error. -/
def numberValue (tok : String) : Except ErrorMsg Int :=
  match stringToInteger tok with
  | some v => .ok v
  | none => .error "SYNTAX ERROR"

/-- The constructor `GotoStatement::GotoStatement`. -/
def GotoStatement (scanner : TokenScanner) : Except ErrorMsg Statement :=
  match nextToken scanner with
  | .error e => .error e
  | .ok (t, scanner1) =>
    if t = "" || getTokenType t ≠ TokenType.NUMBER then .error "SYNTAX ERROR"
    else if hasMoreTokens scanner1 then .error "SYNTAX ERROR"
    else
      match numberValue t with
      | .ok v => .ok (Statement.Goto v)
      | .error e => .error e

/-- The string built by the loop of `parseExpFromTokens`: the tokens separated
by one blank. -/
def joinTokens : List String → String
  | [] => ""
  | [t] => t
  | t :: u :: rest => t ++ " " ++ joinTokens (u :: rest)

/-- The helper `parseExpFromTokens`: the tokens are glued together and scanned
again. -/
def parseExpFromTokens (toks : List String) : Except ErrorMsg Expression :=
  parseExp (setInput (joinTokens toks))

/-- First loop of `IfStatement::IfStatement`: reads the left-hand tokens up to
a relational operator at depth 0.  Returns the operator, the tokens read
before it and the scanner after it. -/
def readLhs : TokenScanner → Int → List String →
    Except ErrorMsg (String × List String × TokenScanner)
  | [], _, _ => .error "SYNTAX ERROR"
  | tok :: rest, depth, lhsT =>
    if isUnrecognized tok then .error "SYNTAX ERROR"
    else if tok = "(" then readLhs rest (depth + 1) (lhsT ++ [tok])
    else if tok = ")" then
      if depth - 1 < 0 then .error "SYNTAX ERROR"
      else readLhs rest (depth - 1) (lhsT ++ [tok])
    else if depth = 0 && (tok = "=" || tok = "<" || tok = ">") then .ok (tok, lhsT, rest)
    else readLhs rest depth (lhsT ++ [tok])

/-- Second loop of `IfStatement::IfStatement`: reads the right-hand tokens up
to `THEN` at depth 0.  Returns the tokens read and the scanner after `THEN`. -/
def readRhs : TokenScanner → Int → List String →
    Except ErrorMsg (List String × TokenScanner)
  | [], _, _ => .error "SYNTAX ERROR"
  | tok :: rest, depth, rhsT =>
    if isUnrecognized tok then .error "SYNTAX ERROR"
    else if tok = "(" then readRhs rest (depth + 1) (rhsT ++ [tok])
    else if tok = ")" then
      if depth - 1 < 0 then .error "SYNTAX ERROR"
      else readRhs rest (depth - 1) (rhsT ++ [tok])
    else if depth = 0 && tok = "THEN" then .ok (rhsT, rest)
    else readRhs rest depth (rhsT ++ [tok])

/-- The constructor `IfStatement::IfStatement`: the two reading loops, then,
inside the `try` block, the two sides are parsed and the target is read.  An
exception thrown by a parse or by the scanner reaches `catch (...)`, which
deletes the sides built so far once and throws again.  The two checks on the
target run `delete L; delete R; error("SYNTAX ERROR")` with both sides built:
the exception reaches the same `catch (...)`, which deletes `L` and `R` a
second time, so these two branches end in undefined behaviour. -/
def IfStatement (scanner : TokenScanner) : Result Statement :=
  match readLhs scanner 0 [] with
  | .error e => .error e
  | .ok (op, lhsT, scanner1) =>
    match readRhs scanner1 0 [] with
    | .error e => .error e
    | .ok (rhsT, scanner2) =>
      match parseExpFromTokens lhsT with
      | .error e => .error e
      | .ok L =>
        match parseExpFromTokens rhsT with
        | .error e => .error e
        | .ok R =>
          match nextToken scanner2 with
          | .error e => .error e
          | .ok (tline, scanner3) =>
            if tline = "" || getTokenType tline ≠ TokenType.NUMBER then .crash
            else if hasMoreTokens scanner3 then .crash
            else
              match numberValue tline with
              | .ok v => .ok (Statement.If L R op v)
              | .error e => .error e

/-! ## Execution (`statement.cpp`) -/

/-- What `execute` and `processLine` act on: the program store, the evaluation
state, the lines still to be read from `std::cin` and the characters written
to `std::cout`. -/
structure Session where
  program : Program
  state : EvalState
  input : List String
  output : String
  deriving DecidableEq, Repr

/-- The loop of `InputStatement::execute`: prompt, read a line, retry after
`INVALID NUMBER`; at the end of the input it returns without a value. -/
def inputLoop (var : String) : List String → EvalState → String →
    EvalState × List String × String
  | [], state, out => (state, [], out ++ " ? ")
  | line :: rest, state, out =>
    match stringToInteger (trim line) with
    | some v => (state.setValue var v, rest, out ++ " ? ")
    | none => inputLoop var rest state (out ++ " ? " ++ "INVALID NUMBER\n")

/-- The comparison selected by `op_` in `IfStatement::execute`; `none` when
`op_` is none of the three relational operators. -/
def relCond (op_ : String) (lv rv : Int) : Option Bool :=
  if op_ = "=" then some (decide (lv = rv))
  else if op_ = "<" then some (decide (lv < rv))
  else if op_ = ">" then some (decide (lv > rv))
  else none

/-- The body of `GotoStatement::execute`, which is also the guarded tail of
`IfStatement::execute`. -/
def jumpTo (target_ : Int) (s : Session) : Option ErrorMsg × Session :=
  if !s.program.hasLine target_ then (some "LINE NUMBER ERROR", s)
  else (none, { s with program := s.program.setNextLineOverride target_ })

/-- The method `execute` of the seven statement classes.  The first component
is the message of the exception thrown, `none` on a normal return. -/
def Statement.execute (stmt : Statement) (s : Session) : Option ErrorMsg × Session :=
  match stmt with
  | .Rem => (none, s)
  | .Let exp_ =>
    match exp_.eval s.state with
    | (.ok _, st) => (none, { s with state := st })
    | (.error e, st) => (some e, { s with state := st })
  | .Print exp_ =>
    match exp_.eval s.state with
    | (.ok v, st) => (none, { s with state := st, output := s.output ++ toString v ++ "\n" })
    | (.error e, st) => (some e, { s with state := st })
  | .Input var_ =>
    match inputLoop var_ s.input s.state s.output with
    | (st, inp, out) => (none, { s with state := st, input := inp, output := out })
  | .End => (none, { s with program := s.program.setNextLineOverride (-1) })
  | .Goto target_ => jumpTo target_ s
  | .If lhs_ rhs_ op_ target_ =>
    match lhs_.eval s.state with
    | (.error e, st) => (some e, { s with state := st })
    | (.ok lv, st) =>
      match rhs_.eval st with
      | (.error e, st1) => (some e, { s with state := st1 })
      | (.ok rv, st1) =>
        match relCond op_ lv rv with
        | none => (some "SYNTAX ERROR", { s with state := st1 })
        | some true => jumpTo target_ { s with state := st1 }
        | some false => (none, { s with state := st1 })

/-! ## Command processing (`Basic.cpp`) -/

/-- The helper `parseStatementForProgram`.  Only the constructor of IF can end
in undefined behaviour; the other constructors yield a statement or throw. -/
def parseStatementForProgram (scanner : TokenScanner) : Result Statement :=
  match nextToken scanner with
  | .error e => .error e
  | .ok (cmd, scanner1) =>
    if cmd = "REM" then Result.ofExcept (RemStatement scanner1)
    else if cmd = "LET" then Result.ofExcept (LetStatement scanner1)
    else if cmd = "PRINT" then Result.ofExcept (PrintStatement scanner1)
    else if cmd = "INPUT" then Result.ofExcept (InputStatement scanner1)
    else if cmd = "END" then Result.ofExcept (EndStatement scanner1)
    else if cmd = "GOTO" then Result.ofExcept (GotoStatement scanner1)
    else if cmd = "IF" then IfStatement scanner1
    else .error "SYNTAX ERROR"

/-- The helper `parseStatementImmediate`. -/
def parseStatementImmediate (cmd : String) (scanner : TokenScanner) :
    Except ErrorMsg Statement :=
  if cmd = "LET" then LetStatement scanner
  else if cmd = "PRINT" then PrintStatement scanner
  else if cmd = "INPUT" then InputStatement scanner
  else .error "SYNTAX ERROR"

/-- How a call of `processLine` ends: it returns, it throws, it calls
`std::exit`, the bound put on the RUN loop is reached before the loop ends, or
the call runs into undefined behaviour and the process with its store is
lost.  In the last case the session given with the outcome is the one at the
moment of the fault; nothing can be done with it afterwards. -/
inductive Outcome where
  | returned
  | thrown (msg : ErrorMsg)
  | exited
  | outOfFuel
  | crashed
  deriving DecidableEq, Repr

/-- The loop of LIST.  The line numbers visited increase strictly and are keys
of the source map, so its length bounds the number of rounds. -/
def listLoop : Nat → Program → Int → String → String
  | 0, _, _, out => out
  | fuel + 1, p, ln, out =>
    if ln = -1 then out
    else listLoop fuel p (p.getNextLineNumber ln) (out ++ p.getSourceLine ln ++ "\n")

/-- The head of the body of the RUN loop: the parsed statement of the current
line; when there is none, the source line is scanned again, its first token is
skipped, the statement is parsed and recorded.  When the line has no source
text either, the text scanned is empty and the parse throws, so the statement
that `setParsedStatement` would drop is never executed. -/
def fetchStatement (p : Program) (current : Int) : Result Statement × Program :=
  match p.getParsedStatement current with
  | some stmt => (.ok stmt, p)
  | none =>
    match nextToken (setInput (p.getSourceLine current)) with
    | .error e => (.error e, p)
    | .ok (_, sc2) =>
      match parseStatementForProgram sc2 with
      | .error e => (.error e, p)
      | .crash => (.crash, p)
      | .ok stmt => (.ok stmt, p.setParsedStatement current stmt)

/-- One round of the RUN loop at line `current`: the line to continue with, or
the message thrown, or the fault of a parse, together with the session after
the round. -/
def runStep (current : Int) (s : Session) : Result Int × Session :=
  match fetchStatement s.program current with
  | (.error e, p1) => (.error e, { s with program := p1 })
  | (.crash, p1) => (.crash, { s with program := p1 })
  | (.ok stmt, p1) =>
    let p2 := p1.clearNextLineOverride
    let nextDefault := p2.getNextLineNumber current
    match stmt.execute { s with program := p2 } with
    | (some e, s1) => (.error e, s1)
    | (none, s1) => (.ok (s1.program.resolveNextLine nextDefault), s1)

/-- The RUN loop `while (current != -1)`, bounded by the number of rounds. -/
def runLoop : Nat → Int → Session → Outcome × Session
  | 0, current, s => if current = -1 then (.returned, s) else (.outOfFuel, s)
  | fuel + 1, current, s =>
    if current = -1 then (.returned, s)
    else
      match runStep current s with
      | (.error e, s1) => (.thrown e, s1)
      | (.crash, s1) => (.crashed, s1)
      | (.ok next, s1) => runLoop fuel next s1

/-- The function `processLine`.  `fuel` bounds the rounds of the RUN loop. -/
def processLine (fuel : Nat) (line : String) (s : Session) : Outcome × Session :=
  match nextToken (setInput line) with
  | .error e => (.thrown e, s)
  | .ok (first, scanner) =>
    if first = "" then (.returned, s)
    else if getTokenType first = TokenType.NUMBER then
      match numberValue first with
      | .error e => (.thrown e, s)
      | .ok lineNumber =>
        if !hasMoreTokens scanner then
          (.returned, { s with program := s.program.removeSourceLine lineNumber })
        else
          match parseStatementForProgram scanner with
          | .error e => (.thrown e, s)
          | .crash => (.crashed, s)
          | .ok stmt =>
            let p1 := s.program.addSourceLine lineNumber line
            (.returned, { s with program := p1.setParsedStatement lineNumber stmt })
    else if first = "LIST" then
      if hasMoreTokens scanner then (.thrown "SYNTAX ERROR", s)
      else
        let out := listLoop s.program.sourceLines_.length s.program
          s.program.getFirstLineNumber s.output
        (.returned, { s with output := out })
    else if first = "RUN" then
      if hasMoreTokens scanner then (.thrown "SYNTAX ERROR", s)
      else runLoop fuel s.program.getFirstLineNumber s
    else if first = "CLEAR" then
      if hasMoreTokens scanner then (.thrown "SYNTAX ERROR", s)
      else (.returned, { s with program := s.program.clear, state := s.state.Clear })
    else if first = "QUIT" then
      if hasMoreTokens scanner then (.thrown "SYNTAX ERROR", s)
      else (.exited, s)
    else
      match parseStatementImmediate first scanner with
      | .error e => (.thrown e, s)
      | .ok stmt =>
        match stmt.execute s with
        | (some e, s1) => (.thrown e, s1)
        | (none, s1) => (.returned, s1)

/-- The session of `main` before the first line is read. -/
def Session.initial (input : List String) : Session :=
  { program := Program.empty, state := [], input := input, output := "" }

/-- Feeds the lines to `processLine` one after the other, as the loop of `main`
does, as long as every call returns. -/
def processLines (fuel : Nat) : List String → Session → Outcome × Session
  | [], s => (.returned, s)
  | line :: rest, s =>
    match processLine fuel line s with
    | (.returned, s1) => processLines fuel rest s1
    | r => r

/-! ## Traces of the loops -/

/-- The key of the first entry of a source map, -1 when it has none. -/
def firstKey (m : List (Int × String)) : Int :=
  match m with
  | [] => -1
  | (k, _) :: _ => k

/-- The line numbers the loop of LIST passes through, in order. -/
def listedNumbers : Nat → Program → Int → List Int
  | 0, _, _ => []
  | fuel + 1, p, ln =>
    if ln = -1 then [] else ln :: listedNumbers fuel p (p.getNextLineNumber ln)

/-- The line numbers LIST passes through on a program store. -/
def listedLines (p : Program) : List Int :=
  listedNumbers p.sourceLines_.length p p.getFirstLineNumber

/-- Each string followed by a line terminator. -/
def concatLines : List String → String
  | [] => ""
  | l :: ls => l ++ "\n" ++ concatLines ls

/-- The text made of the source lines of the numbers LIST passes through. -/
def listing (p : Program) : String :=
  concatLines ((listedLines p).map p.getSourceLine)

/-- The progress of the RUN loop: the line reached and the session after `k`
rounds that all returned normally; `none` when the loop has ended or thrown
before. -/
def runRounds : Nat → Int → Session → Option (Int × Session)
  | 0, current, s => some (current, s)
  | k + 1, current, s =>
    if current = -1 then none
    else
      match runStep current s with
      | (.ok next, s1) => runRounds k next s1
      | (.error _, _) => none
      | (.crash, _) => none

/-! ## Sequences of calls -/

/-- A call that edits the source map. -/
inductive StoreOp where
  | add (lineNumber : Int) (line : String)
  | remove (lineNumber : Int)
  deriving DecidableEq, Repr

/-- The store after a sequence of `addSourceLine` and `removeSourceLine`
calls. -/
def applyOps : List StoreOp → Program → Program
  | [], p => p
  | StoreOp.add lineNumber line :: rest, p => applyOps rest (p.addSourceLine lineNumber line)
  | StoreOp.remove lineNumber :: rest, p => applyOps rest (p.removeSourceLine lineNumber)

/-- The session after a sequence of calls of `processLine`, each with its own
bound on the RUN loop, whatever the way each call ends.  A call that ends the
process (QUIT, or the double deletion in the constructor of IF) leaves the
session as it stands and the sequence goes on from it, so the sessions reached
here include every session the interpreter reaches. -/
def processAll : List (Nat × String) → Session → Session
  | [], s => s
  | (fuel, line) :: rest, s => processAll rest (processLine fuel line s).2

/-- The line numbers at which the RUN loop runs a round, in order. -/
def runTrace : Nat → Int → Session → List Int
  | 0, _, _ => []
  | fuel + 1, current, s =>
    if current = -1 then []
    else
      match runStep current s with
      | (.ok next, s1) => current :: runTrace fuel next s1
      | (.error _, _) => [current]
      | (.crash, _) => [current]

/-- What an input line does to the store when it is an edit: `(N, true)` for a
line with number `N` whose statement parses, `(N, false)` for the number `N`
alone, `none` for every other line. -/
def editOf (line : String) : Option (Int × Bool) :=
  match nextToken (setInput line) with
  | .error _ => none
  | .ok (first, scanner) =>
    if getTokenType first = TokenType.NUMBER then
      match numberValue first with
      | .error _ => none
      | .ok N =>
        if hasMoreTokens scanner then
          match parseStatementForProgram scanner with
          | .ok _ => some (N, true)
          | .error _ => none
          | .crash => none
        else some (N, false)
    else none

/-- The input line of the most recent store for `N` that no later deletion of
`N` follows, starting from `cur`. -/
def latestText : List String → Int → Option String → Option String
  | [], _, cur => cur
  | line :: rest, N, cur =>
    match editOf line with
    | some (M, true) => latestText rest N (if M = N then some line else cur)
    | some (M, false) => latestText rest N (if M = N then none else cur)
    | none => latestText rest N cur

/-- The output of `k` rounds of prompting, each answered by a line that is not
an integer. -/
def promptRetries : Nat → String
  | 0 => ""
  | k + 1 => " ? " ++ "INVALID NUMBER\n" ++ promptRetries k

/-! ## Parenthesis depth -/

/-- The change of depth a token makes. -/
def tokDepth (tok : String) : Int :=
  if tok = "(" then 1 else if tok = ")" then -1 else 0

/-- The parenthesis depth after a run of tokens. -/
def depthOf : List String → Int
  | [] => 0
  | tok :: rest => tokDepth tok + depthOf rest

/-- The relational operators. -/
def isRelop (tok : String) : Bool :=
  tok = "=" || tok = "<" || tok = ">"

/-- The keyword that ends the right side. -/
def isThen (tok : String) : Bool :=
  tok = "THEN"

/-- Starting at depth `d`, every token of `toks` is recognised, no closing
parenthesis takes the depth below 0, and no token that `isB` marks stands at
depth 0. -/
def ReadsThrough (isB : String → Bool) (d : Int) (toks : List String) : Prop :=
  ∀ pre tok post, toks = pre ++ tok :: post →
    isUnrecognized tok = false ∧ 0 ≤ d + depthOf (pre ++ [tok])
      ∧ ¬ (isB tok = true ∧ d + depthOf pre = 0)

/-- The common shape of the two reading loops of `IfStatement::IfStatement`,
with the test for the bounding token left open. -/
def readUntil (isB : String → Bool) : TokenScanner → Int → List String →
    Except ErrorMsg (String × List String × TokenScanner)
  | [], _, _ => .error "SYNTAX ERROR"
  | tok :: rest, depth, acc =>
    if isUnrecognized tok then .error "SYNTAX ERROR"
    else if tok = "(" then readUntil isB rest (depth + 1) (acc ++ [tok])
    else if tok = ")" then
      if depth - 1 < 0 then .error "SYNTAX ERROR"
      else readUntil isB rest (depth - 1) (acc ++ [tok])
    else if depth = 0 && isB tok then .ok (tok, acc, rest)
    else readUntil isB rest depth (acc ++ [tok])

/-! ## Predicates used in the statements -/

/-- The order kept by `std::map`: the keys of the source map ascend strictly. -/
def Program.Ordered (p : Program) : Prop :=
  p.sourceLines_.Pairwise (fun a b => a.1 < b.1)

instance Program.decidableOrdered (p : Program) : Decidable p.Ordered :=
  inferInstanceAs
    (Decidable (p.sourceLines_.Pairwise (fun (a b : Int × String) => a.1 < b.1)))

/-- No node of the expression is an assignment. -/
def Expression.noAssign : Expression → Bool
  | .Constant _ => true
  | .Identifier _ => true
  | .Compound op lhs rhs => op ≠ "=" && lhs.noAssign && rhs.noAssign

/-- An assignment node at the root has an identifier on its left. -/
def Expression.targetOk : Expression → Prop
  | .Compound op lhs _ => op = "=" → ∃ name, lhs = Expression.Identifier name
  | _ => True

/-- The key sets of the two maps are the same: a line number has a source
text exactly when it has a parsed statement. -/
def Program.KeysAgree (p : Program) : Prop :=
  ∀ N, (mapFind p.sourceLines_ N).isSome = (mapFind p.parsed_ N).isSome

/-- The statements that neither jump nor read: REM, LET and PRINT. -/
def Statement.isSequential : Statement → Bool
  | .Rem => true
  | .Let _ => true
  | .Print _ => true
  | _ => false

/-! ## The maps of the program store -/

theorem mapFind_mapInsert_self {α : Type} (m : List (Int × α)) (key : Int) (value : α) :
    mapFind (mapInsert m key value) key = some value := by
  induction m with
  | nil => simp [mapInsert, mapFind]
  | cons hd tl ih =>
    obtain ⟨k, v⟩ := hd
    by_cases h1 : key < k
    · simp [mapInsert, mapFind, h1]
    · by_cases h2 : key = k
      · simp [mapInsert, mapFind, h2]
      · have h3 : ¬ k = key := fun h => h2 h.symm
        simp [mapInsert, mapFind, h1, h2, h3, ih]

theorem mapFind_mapInsert_other {α : Type} (m : List (Int × α)) (key other : Int) (value : α)
    (h : other ≠ key) : mapFind (mapInsert m key value) other = mapFind m other := by
  have hk : ¬ key = other := fun e => h e.symm
  induction m with
  | nil => simp [mapInsert, mapFind, hk]
  | cons hd tl ih =>
    obtain ⟨k, v⟩ := hd
    by_cases h1 : key < k
    · simp [mapInsert, mapFind, h1, hk]
    · by_cases h2 : key = k
      · subst h2
        simp [mapInsert, mapFind, hk]
      · by_cases h3 : k = other
        · subst h3
          simp [mapInsert, mapFind, h1, h2]
        · simp [mapInsert, mapFind, h1, h2, h3, ih]

theorem mapFind_mapErase_self {α : Type} (m : List (Int × α)) (key : Int) :
    mapFind (mapErase m key) key = none := by
  induction m with
  | nil => simp [mapErase, mapFind]
  | cons hd tl ih =>
    obtain ⟨k, v⟩ := hd
    by_cases h : k = key
    · simpa [mapErase, h] using ih
    · have : mapFind (mapErase tl key) key = none := ih
      simp [mapErase, List.filter_cons, h, mapFind] at this ⊢
      exact this

theorem mapFind_mapErase_other {α : Type} (m : List (Int × α)) (key other : Int)
    (h : other ≠ key) : mapFind (mapErase m key) other = mapFind m other := by
  induction m with
  | nil => simp [mapErase, mapFind]
  | cons hd tl ih =>
    obtain ⟨k, v⟩ := hd
    have ih1 : mapFind (List.filter (fun e => decide (e.1 ≠ key)) tl) other = mapFind tl other := ih
    by_cases hk : k = key
    · have hko : ¬ k = other := fun e => h (e.symm.trans hk)
      simp [mapErase, List.filter_cons, hk, mapFind] at ih1 ⊢
      subst hk
      simp [hko, ih1]
    · by_cases hko : k = other
      · subst hko
        simp [mapErase, List.filter_cons, hk, mapFind]
      · simp [mapErase, List.filter_cons, hk, mapFind, hko] at ih1 ⊢
        exact ih1

/-! ## Facts about the store operations -/

theorem getTokenType_number_ne_empty (tok : String)
    (h : getTokenType tok = TokenType.NUMBER) : tok ≠ "" := by
  intro he
  subst he
  simp [getTokenType] at h

theorem listLoop_eq (fuel : Nat) (p : Program) (ln : Int) (out : String) :
    listLoop fuel p ln out
      = out ++ concatLines ((listedNumbers fuel p ln).map p.getSourceLine) := by
  induction fuel generalizing ln out with
  | zero => simp [listLoop, listedNumbers, concatLines]
  | succ n ih =>
    by_cases h : ln = -1
    · simp [listLoop, listedNumbers, concatLines, h]
    · simp [listLoop, listedNumbers, concatLines, h, ih, String.append_assoc]

theorem find_some_mem_keys {α : Type} (m : List (Int × α)) (q : Int × α → Bool) (k : Int) (v : α)
    (h : m.find? q = some (k, v)) : mapFind m k ≠ none := by
  induction m with
  | nil => simp at h
  | cons hd tl ih =>
    obtain ⟨k1, v1⟩ := hd
    by_cases hk : k1 = k
    · simp [mapFind, hk]
    · by_cases hq : q (k1, v1) = true
      · simp [List.find?, hq] at h
        exact absurd h.1 hk
      · simp [List.find?, hq] at h
        simp [mapFind, hk]
        exact ih h

theorem listedNumbers_next_stored (fuel : Nat) (p : Program) (ln n : Int)
    (h : n ∈ listedNumbers fuel p (p.getNextLineNumber ln)) :
    p.hasLine n = true := by
  induction fuel generalizing ln with
  | zero => simp [listedNumbers] at h
  | succ f ih =>
    by_cases h1 : p.getNextLineNumber ln = -1
    · simp [listedNumbers, h1] at h
    · simp only [listedNumbers, h1, if_false, List.mem_cons] at h
      rcases h with h | h
      · subst h
        unfold Program.getNextLineNumber at h1 ⊢
        cases hf : p.sourceLines_.find? (fun e => decide (ln < e.1)) with
        | none => simp [hf] at h1
        | some kv =>
          obtain ⟨k, v⟩ := kv
          have := find_some_mem_keys _ _ _ _ hf
          simp only [Program.hasLine]
          cases hm : mapFind p.sourceLines_ k with
          | none => exact absurd hm this
          | some _ => rfl
      · exact ih _ h

theorem listedNumbers_stored (fuel : Nat) (p : Program) (n : Int)
    (h : n ∈ listedNumbers fuel p p.getFirstLineNumber) : p.hasLine n = true := by
  cases fuel with
  | zero => simp [listedNumbers] at h
  | succ f =>
    by_cases h1 : p.getFirstLineNumber = -1
    · simp [listedNumbers, h1] at h
    · simp only [listedNumbers, h1, if_false, List.mem_cons] at h
      rcases h with h | h
      · subst h
        unfold Program.getFirstLineNumber at h1 ⊢
        cases hs : p.sourceLines_ with
        | nil => simp [hs] at h1
        | cons hd tl =>
          obtain ⟨k, v⟩ := hd
          simp [Program.hasLine, mapFind, hs]
      · exact listedNumbers_next_stored f p _ n h

theorem processLine_store (fuel : Nat) (line : String) (s : Session)
    (first : String) (scanner : TokenScanner) (N : Int) (stmt : Statement)
    (hfirst : nextToken (setInput line) = .ok (first, scanner))
    (hnum : getTokenType first = TokenType.NUMBER)
    (hval : numberValue first = .ok N)
    (hmore : hasMoreTokens scanner = true)
    (hparse : parseStatementForProgram scanner = .ok stmt) :
    processLine fuel line s
      = (Outcome.returned,
          { s with program := (s.program.addSourceLine N line).setParsedStatement N stmt }) := by
  have hne := getTokenType_number_ne_empty first hnum
  simp [processLine, hfirst, hne, hnum, hval, hmore, hparse]

theorem processLine_delete (fuel : Nat) (line : String) (s : Session)
    (first : String) (N : Int)
    (hfirst : nextToken (setInput line) = .ok (first, []))
    (hnum : getTokenType first = TokenType.NUMBER)
    (hval : numberValue first = .ok N) :
    processLine fuel line s
      = (Outcome.returned, { s with program := s.program.removeSourceLine N }) := by
  have hne := getTokenType_number_ne_empty first hnum
  simp [processLine, hfirst, hne, hnum, hval, hasMoreTokens]

theorem stored_source (p : Program) (N : Int) (line : String) (stmt : Statement) :
    mapFind ((p.addSourceLine N line).setParsedStatement N stmt).sourceLines_ N = some line := by
  have h : mapFind (p.addSourceLine N line).sourceLines_ N = some line :=
    mapFind_mapInsert_self _ _ _
  simp only [Program.setParsedStatement, h]

theorem stored_parsed (p : Program) (N : Int) (line : String) (stmt : Statement) :
    ((p.addSourceLine N line).setParsedStatement N stmt).getParsedStatement N = some stmt := by
  have h : mapFind (p.addSourceLine N line).sourceLines_ N = some line :=
    mapFind_mapInsert_self _ _ _
  simp only [Program.setParsedStatement, h, Program.getParsedStatement]
  exact mapFind_mapInsert_self _ _ _

theorem stored_source_other (p : Program) (N M : Int) (line : String) (stmt : Statement)
    (h : M ≠ N) :
    mapFind ((p.addSourceLine N line).setParsedStatement N stmt).sourceLines_ M
      = mapFind p.sourceLines_ M := by
  have h1 : mapFind (p.addSourceLine N line).sourceLines_ N = some line :=
    mapFind_mapInsert_self _ _ _
  simp only [Program.setParsedStatement, h1]
  exact mapFind_mapInsert_other _ _ _ _ h

theorem stored_parsed_other (p : Program) (N M : Int) (line : String) (stmt : Statement)
    (h : M ≠ N) :
    ((p.addSourceLine N line).setParsedStatement N stmt).getParsedStatement M
      = p.getParsedStatement M := by
  have h1 : mapFind (p.addSourceLine N line).sourceLines_ N = some line :=
    mapFind_mapInsert_self _ _ _
  simp only [Program.setParsedStatement, h1, Program.getParsedStatement]
  rw [mapFind_mapInsert_other _ _ _ _ h]
  exact mapFind_mapErase_other _ _ _ h

/-! ## C1: a line that fails to parse -/

/-- The part of the parse failures that leaves the store alone: when the input
line starts with the number `N`, has more tokens and the exception `e` thrown
for its statement part leaves `parseStatementForProgram`, `processLine` throws
`e` and the session after the call is the session before it.  So the source
text and the parsed statement of `N` and of every other line are the ones from
before, and a line number that was absent is still absent.  The failures of
IF that end in the double deletion are not among these. -/
theorem processLine_parse_failure_keeps_store (fuel : Nat) (line : String) (s : Session)
    (first : String) (scanner : TokenScanner) (N : Int) (e : ErrorMsg)
    (hfirst : nextToken (setInput line) = .ok (first, scanner))
    (hnum : getTokenType first = TokenType.NUMBER)
    (hval : numberValue first = .ok N)
    (hmore : hasMoreTokens scanner = true)
    (hfail : parseStatementForProgram scanner = .error e) :
    processLine fuel line s = (Outcome.thrown e, s)
      ∧ (∀ M, (processLine fuel line s).2.program.getSourceLine M = s.program.getSourceLine M
          ∧ (processLine fuel line s).2.program.getParsedStatement M
              = s.program.getParsedStatement M
          ∧ (processLine fuel line s).2.program.hasLine M = s.program.hasLine M) := by
  have hne := getTokenType_number_ne_empty first hnum
  have h : processLine fuel line s = (Outcome.thrown e, s) := by
    simp [processLine, hfirst, hne, hnum, hval, hmore, hfail]
  refine ⟨h, fun M => ?_⟩
  rw [h]
  exact ⟨rfl, rfl, rfl⟩

/-- Instance of a parse failure that leaves the store alone: line 10 holds
`10 PRINT 1`; the line `10 LET` is refused and line 10 stays as it was. -/
theorem processLine_parse_failure_keeps_store_witness :
    processLine 0 "10 LET"
        ⟨⟨[(10, "10 PRINT 1")], [(10, Statement.Print (Expression.Constant 1))], INT_MIN⟩,
          [], [], ""⟩
      = (Outcome.thrown "SYNTAX ERROR",
        ⟨⟨[(10, "10 PRINT 1")], [(10, Statement.Print (Expression.Constant 1))], INT_MIN⟩,
          [], [], ""⟩) :=
  (processLine_parse_failure_keeps_store 0 "10 LET" _ "10" ["LET"] 10 "SYNTAX ERROR"
    rfl rfl rfl rfl rfl).1

/-- C1: the claim asks that a numbered line whose statement part fails to
parse leaves the store as it was.  With line 10 stored as `10 PRINT 1`, the
lines `10 IF 1 = 2 THEN X` and `10 IF 1 = 2 THEN 3 4` make the constructor of
IF run `delete L; delete R; error("SYNTAX ERROR")` and then delete both sides
again in `catch (...)`: the statement part does not come back with SYNTAX
ERROR, `processLine` neither returns nor throws, and no store is left. -/
theorem processLine_if_tail_double_free :
    parseStatementForProgram ["IF", "1", "=", "2", "THEN", "X"] = .crash
    ∧ (processLine 0 "10 IF 1 = 2 THEN X"
        ⟨⟨[(10, "10 PRINT 1")], [(10, Statement.Print (Expression.Constant 1))], INT_MIN⟩,
          [], [], ""⟩).1 = Outcome.crashed
    ∧ parseStatementForProgram ["IF", "1", "=", "2", "THEN", "3", "4"] = .crash
    ∧ (processLine 0 "10 IF 1 = 2 THEN 3 4"
        ⟨⟨[(10, "10 PRINT 1")], [(10, Statement.Print (Expression.Constant 1))], INT_MIN⟩,
          [], [], ""⟩).1 = Outcome.crashed :=
  ⟨rfl, rfl, rfl, rfl⟩

/-! ## C2: a bare line number deletes the line -/

/-- C2: when the input line consists of the number `N` alone, `processLine`
returns with the program store replaced by `removeSourceLine N`: line `N` has
neither a source text nor a parsed statement, every other line keeps both,
`hasLine N` is false, the loop of LIST does not pass through `N` (its output is
made of the source lines of the numbers it passes through), and a GOTO to `N`
throws LINE NUMBER ERROR. -/
theorem processLine_bare_number_deletes (fuel : Nat) (line : String) (s : Session)
    (first : String) (N : Int)
    (hfirst : nextToken (setInput line) = .ok (first, []))
    (hnum : getTokenType first = TokenType.NUMBER)
    (hval : numberValue first = .ok N)
    (hpresent : s.program.hasLine N = true) :
    ∃ s1 : Session,
      processLine fuel line s = (Outcome.returned, s1)
      ∧ s1 = { s with program := s.program.removeSourceLine N }
      ∧ mapFind s1.program.sourceLines_ N = none
      ∧ s1.program.getParsedStatement N = none
      ∧ (∀ M, M ≠ N →
          mapFind s1.program.sourceLines_ M = mapFind s.program.sourceLines_ M
          ∧ s1.program.getParsedStatement M = s.program.getParsedStatement M)
      ∧ s1.program.hasLine N = false
      ∧ (∀ fuel1, processLine fuel1 "LIST" s1
          = (Outcome.returned, { s1 with output := s1.output ++ listing s1.program }))
      ∧ N ∉ listedLines s1.program
      ∧ (Statement.Goto N).execute s1 = (some "LINE NUMBER ERROR", s1) := by
  have _ := hpresent
  have hsrc : mapFind (s.program.removeSourceLine N).sourceLines_ N = none :=
    mapFind_mapErase_self _ _
  have hhas : (s.program.removeSourceLine N).hasLine N = false := by
    simp [Program.hasLine, hsrc]
  refine ⟨{ s with program := s.program.removeSourceLine N },
    processLine_delete fuel line s first N hfirst hnum hval, rfl, hsrc,
    mapFind_mapErase_self _ _, ?_, hhas, ?_, ?_, ?_⟩
  · intro M hM
    exact ⟨mapFind_mapErase_other _ _ _ hM, mapFind_mapErase_other _ _ _ hM⟩
  · intro fuel1
    have hl : nextToken (setInput "LIST") = .ok ("LIST", []) := rfl
    have ht : getTokenType "LIST" ≠ TokenType.NUMBER := by decide
    simp [processLine, hl, ht, hasMoreTokens, listLoop_eq, listedLines, listing]
  · intro hmem
    have := listedNumbers_stored _ _ _ hmem
    rw [hhas] at this
    exact Bool.noConfusion this
  · simp [Statement.execute, jumpTo, hhas]

/-- Witness for C2: the store holds lines 10 and 20; the input `10` removes
line 10. -/
theorem processLine_bare_number_deletes_witness :
    ∃ s1 : Session,
      processLine 0 "10"
          ⟨⟨[(10, "10 REM"), (20, "20 END")], [(10, Statement.Rem), (20, Statement.End)],
            INT_MIN⟩, [], [], ""⟩ = (Outcome.returned, s1)
      ∧ s1.program.hasLine 10 = false
      ∧ (Statement.Goto 10).execute s1 = (some "LINE NUMBER ERROR", s1) := by
  obtain ⟨s1, h1, _, _, _, _, h6, _, _, h9⟩ :=
    processLine_bare_number_deletes 0 "10"
      ⟨⟨[(10, "10 REM"), (20, "20 END")], [(10, Statement.Rem), (20, Statement.End)],
        INT_MIN⟩, [], [], ""⟩ "10" 10 rfl rfl rfl rfl
  exact ⟨s1, h1, h6, h9⟩

/-! ## C3: storing a line again replaces it -/

/-- C3: when two input lines with the same number `N` are stored one after the
other, both parsing, then afterwards `getSourceLine N` is the second input
line, `getParsedStatement N` is the statement parsed from the second line, the
RUN loop fetches that statement at `N`, and every other line has the source
text and the parsed statement it had before the second store. -/
theorem processLine_restore_replaces (fuel : Nat) (line1 line2 : String) (s : Session)
    (first1 first2 : String) (scanner1 scanner2 : TokenScanner) (N : Int)
    (stmt1 stmt2 : Statement)
    (hfirst1 : nextToken (setInput line1) = .ok (first1, scanner1))
    (hnum1 : getTokenType first1 = TokenType.NUMBER)
    (hval1 : numberValue first1 = .ok N)
    (hmore1 : hasMoreTokens scanner1 = true)
    (hparse1 : parseStatementForProgram scanner1 = .ok stmt1)
    (hfirst2 : nextToken (setInput line2) = .ok (first2, scanner2))
    (hnum2 : getTokenType first2 = TokenType.NUMBER)
    (hval2 : numberValue first2 = .ok N)
    (hmore2 : hasMoreTokens scanner2 = true)
    (hparse2 : parseStatementForProgram scanner2 = .ok stmt2) :
    ∃ s1 s2 : Session,
      processLine fuel line1 s = (Outcome.returned, s1)
      ∧ s1.program.getSourceLine N = line1
      ∧ s1.program.getParsedStatement N = some stmt1
      ∧ processLine fuel line2 s1 = (Outcome.returned, s2)
      ∧ s2.program.getSourceLine N = line2
      ∧ s2.program.getParsedStatement N = some stmt2
      ∧ fetchStatement s2.program N = (.ok stmt2, s2.program)
      ∧ (∀ M, M ≠ N →
          s2.program.getSourceLine M = s1.program.getSourceLine M
          ∧ s2.program.hasLine M = s1.program.hasLine M
          ∧ s2.program.getParsedStatement M = s1.program.getParsedStatement M) := by
  refine ⟨_, _, processLine_store fuel line1 s first1 scanner1 N stmt1 hfirst1 hnum1 hval1
      hmore1 hparse1, ?_, stored_parsed _ _ _ _,
    processLine_store fuel line2 _ first2 scanner2 N stmt2 hfirst2 hnum2 hval2 hmore2 hparse2,
    ?_, stored_parsed _ _ _ _, ?_, ?_⟩
  · simp only [Program.getSourceLine, stored_source]
  · simp only [Program.getSourceLine, stored_source]
  · simp only [fetchStatement, stored_parsed]
  · intro M hM
    simp only [Program.getSourceLine, Program.hasLine, stored_source_other _ _ _ _ _ hM,
      stored_parsed_other _ _ _ _ _ hM]
    exact ⟨trivial, trivial, trivial⟩

/-- Witness for C3: `10 PRINT 1` is stored, then `10 PRINT 2`. -/
theorem processLine_restore_replaces_witness :
    ∃ s1 s2 : Session,
      processLine 0 "10 PRINT 1" (Session.initial []) = (Outcome.returned, s1)
      ∧ processLine 0 "10 PRINT 2" s1 = (Outcome.returned, s2)
      ∧ s2.program.getSourceLine 10 = "10 PRINT 2"
      ∧ s2.program.getParsedStatement 10 = some (Statement.Print (Expression.Constant 2)) := by
  obtain ⟨s1, s2, h1, _, _, h4, h5, h6, _, _⟩ :=
    processLine_restore_replaces 0 "10 PRINT 1" "10 PRINT 2" (Session.initial [])
      "10" "10" ["PRINT", "1"] ["PRINT", "2"] 10
      (Statement.Print (Expression.Constant 1)) (Statement.Print (Expression.Constant 2))
      rfl rfl rfl rfl rfl rfl rfl rfl rfl rfl
  exact ⟨s1, s2, h1, h4, h5, h6⟩

/-! ## C4: GOTO -/

/-- C4: executing `GOTO target` throws LINE NUMBER ERROR and leaves the whole
session (evaluation state and override included) as it was when the target is
not a stored line; when it is stored, the execution returns normally and only
sets the override to the target. -/
theorem goto_execute (s : Session) (target : Int) :
    (Statement.Goto target).execute s
      = if s.program.hasLine target = true then
          (none, { s with program := { s.program with nextLineOverride_ := target } })
        else (some "LINE NUMBER ERROR", s) := by
  cases h : s.program.hasLine target <;>
    simp [Statement.execute, jumpTo, h, Program.setNextLineOverride]

/-! ## Facts about the successor of a line -/

theorem hasLine_iff_mem (p : Program) (M : Int) :
    p.hasLine M = true ↔ ∃ v, (M, v) ∈ p.sourceLines_ := by
  unfold Program.hasLine
  generalize p.sourceLines_ = m
  induction m with
  | nil => simp [mapFind]
  | cons hd tl ih =>
    obtain ⟨k, v⟩ := hd
    by_cases hk : k = M
    · subst hk
      simp [mapFind]
    · have hk1 : ¬ M = k := fun e => hk e.symm
      simp [mapFind, hk, hk1, ih]

theorem find_gt_least (m : List (Int × String)) (L : Int)
    (hsorted : m.Pairwise (fun a b => a.1 < b.1)) :
    match m.find? (fun e => decide (L < e.1)) with
    | none => ∀ M v, (M, v) ∈ m → M ≤ L
    | some (k, w) => (k, w) ∈ m ∧ L < k ∧ ∀ M v, (M, v) ∈ m → L < M → k ≤ M := by
  induction m with
  | nil => simp
  | cons hd tl ih =>
    obtain ⟨k, w⟩ := hd
    rw [List.pairwise_cons] at hsorted
    have ih1 := ih hsorted.2
    by_cases hk : L < k
    · have hdec : decide (L < k) = true := decide_eq_true hk
      simp only [List.find?, hdec]
      refine ⟨List.mem_cons_self _ _, hk, ?_⟩
      intro M v hM _
      rcases List.mem_cons.mp hM with h | h
      · simp only [Prod.mk.injEq] at h
        omega
      · have := hsorted.1 (M, v) h
        simp only at this
        omega
    · have hdec : decide (L < k) = false := decide_eq_false hk
      simp only [List.find?, hdec]
      cases hf : tl.find? (fun e => decide (L < e.1)) with
      | none =>
        rw [hf] at ih1
        simp only at ih1 ⊢
        intro M v hM
        rcases List.mem_cons.mp hM with h | h
        · simp only [Prod.mk.injEq] at h
          omega
        · exact ih1 M v h
      | some kv =>
        obtain ⟨k1, w1⟩ := kv
        rw [hf] at ih1
        simp only at ih1 ⊢
        refine ⟨List.mem_cons_of_mem _ ih1.1, ih1.2.1, ?_⟩
        intro M v hM hLM
        rcases List.mem_cons.mp hM with h | h
        · simp only [Prod.mk.injEq] at h
          omega
        · exact ih1.2.2 M v h hLM

/-- On an ordered store `getNextLineNumber L` is -1 when no stored line number
exceeds `L`, and otherwise the least stored line number above `L`. -/
theorem getNextLineNumber_spec (p : Program) (L : Int) (hsorted : p.Ordered) :
    (p.getNextLineNumber L = -1 ∧ ∀ M, p.hasLine M = true → M ≤ L)
    ∨ (p.hasLine (p.getNextLineNumber L) = true ∧ L < p.getNextLineNumber L
        ∧ ∀ M, p.hasLine M = true → L < M → p.getNextLineNumber L ≤ M) := by
  have h := find_gt_least p.sourceLines_ L hsorted
  unfold Program.getNextLineNumber
  cases hf : p.sourceLines_.find? (fun e => decide (L < e.1)) with
  | none =>
    rw [hf] at h
    left
    refine ⟨rfl, fun M hM => ?_⟩
    obtain ⟨v, hv⟩ := (hasLine_iff_mem p M).mp hM
    exact h M v hv
  | some kv =>
    obtain ⟨k, w⟩ := kv
    rw [hf] at h
    right
    refine ⟨(hasLine_iff_mem p k).mpr ⟨w, h.1⟩, h.2.1, fun M hM hLM => ?_⟩
    obtain ⟨v, hv⟩ := (hasLine_iff_mem p M).mp hM
    exact h.2.2 M v hv hLM

theorem mem_mapInsert {α : Type} (m : List (Int × α)) (key : Int) (value : α)
    (x : Int × α) (h : x ∈ mapInsert m key value) : x = (key, value) ∨ x ∈ m := by
  induction m with
  | nil =>
    simp only [mapInsert, List.mem_singleton] at h
    exact Or.inl h
  | cons hd tl ih =>
    obtain ⟨k, v⟩ := hd
    unfold mapInsert at h
    split at h
    · rcases List.mem_cons.mp h with h1 | h1
      · exact Or.inl h1
      · exact Or.inr h1
    · split at h
      · rcases List.mem_cons.mp h with h1 | h1
        · exact Or.inl h1
        · exact Or.inr (List.mem_cons_of_mem _ h1)
      · rcases List.mem_cons.mp h with h1 | h1
        · exact Or.inr (h1 ▸ List.mem_cons_self _ _)
        · rcases ih h1 with h2 | h2
          · exact Or.inl h2
          · exact Or.inr (List.mem_cons_of_mem _ h2)

/-- Insertion keeps the keys in strictly ascending order. -/
theorem mapInsert_ordered {α : Type} (m : List (Int × α)) (key : Int) (value : α)
    (h : m.Pairwise (fun a b => a.1 < b.1)) :
    (mapInsert m key value).Pairwise (fun a b => a.1 < b.1) := by
  induction m with
  | nil => simp [mapInsert]
  | cons hd tl ih =>
    obtain ⟨k, v⟩ := hd
    rw [List.pairwise_cons] at h
    unfold mapInsert
    split
    · rename_i hlt
      refine List.pairwise_cons.mpr ⟨?_, List.pairwise_cons.mpr h⟩
      intro x hx
      rcases List.mem_cons.mp hx with h1 | h1
      · rw [h1]
        exact hlt
      · have := h.1 x h1
        simp only at this ⊢
        omega
    · split
      · rename_i heq
        refine List.pairwise_cons.mpr ⟨?_, h.2⟩
        intro x hx
        have := h.1 x hx
        simp only at this ⊢
        omega
      · rename_i hlt hne
        refine List.pairwise_cons.mpr ⟨?_, ih h.2⟩
        intro x hx
        rcases mem_mapInsert tl key value x hx with h1 | h1
        · rw [h1]
          simp only
          omega
        · exact h.1 x h1

/-- Removal keeps the keys in strictly ascending order. -/
theorem mapErase_ordered {α : Type} (m : List (Int × α)) (key : Int)
    (h : m.Pairwise (fun a b => a.1 < b.1)) :
    (mapErase m key).Pairwise (fun a b => a.1 < b.1) :=
  List.Pairwise.filter _ h

theorem empty_ordered : Program.empty.Ordered := by
  simp [Program.Ordered, Program.empty]

theorem clear_ordered (p : Program) : p.clear.Ordered := by
  simp [Program.Ordered, Program.clear]

theorem addSourceLine_ordered (p : Program) (lineNumber : Int) (line : String)
    (h : p.Ordered) : (p.addSourceLine lineNumber line).Ordered :=
  mapInsert_ordered _ _ _ h

theorem removeSourceLine_ordered (p : Program) (lineNumber : Int) (h : p.Ordered) :
    (p.removeSourceLine lineNumber).Ordered :=
  mapErase_ordered _ _ h

theorem setParsedStatement_ordered (p : Program) (lineNumber : Int) (stmt : Statement)
    (h : p.Ordered) : (p.setParsedStatement lineNumber stmt).Ordered := by
  unfold Program.setParsedStatement
  split
  · exact h
  · exact h

theorem runLoop_stop (fuel : Nat) (s : Session) :
    runLoop fuel (-1) s = (Outcome.returned, s) := by
  cases fuel <;> simp [runLoop]

theorem noAssign_eval (e : Expression) (state : EvalState) (h : e.noAssign = true) :
    (e.eval state).2 = state := by
  induction e generalizing state with
  | Constant v => simp [Expression.eval]
  | Identifier name =>
    simp only [Expression.eval]
    cases state.getValue name <;> rfl
  | Compound op lhs rhs ihl ihr =>
    simp only [Expression.noAssign, Bool.and_eq_true, decide_eq_true_eq] at h
    obtain ⟨⟨hop, hl⟩, hr⟩ := h
    have h1 := ihl state hl
    simp only [Expression.eval, hop, if_false]
    cases hle : lhs.eval state with
    | mk r1 s1 =>
      rw [hle] at h1
      simp only at h1
      subst h1
      cases r1 with
      | error e1 => rfl
      | ok a =>
        have h2 := ihr s1 hr
        cases hre : rhs.eval s1 with
        | mk r2 s2 =>
          rw [hre] at h2
          simp only at h2
          subst h2
          cases r2 <;> simp [hre]

/-! ## C5: IF in the RUN loop -/

/-- C5: let line `L` hold a parsed IF statement whose target `T` is a stored
line, on a store whose source map is ordered, and let its two sides evaluate to
`lv` and `rv`.  Then the RUN loop at `L` continues at `T` when the comparison
holds and at `getNextLineNumber L` when it does not; `getNextLineNumber L` is
the least stored line number above `L`, or -1 when there is none, and then the
loop returns. -/
theorem if_run_step (L T : Int) (s : Session) (lhs rhs : Expression) (op : String)
    (lv rv : Int) (st1 st2 : EvalState) (cond : Bool)
    (hstored : s.program.getParsedStatement L = some (Statement.If lhs rhs op T))
    (hL : 0 ≤ L) (hT : 0 ≤ T)
    (htarget : s.program.hasLine T = true)
    (hsorted : s.program.Ordered)
    (hl : lhs.eval s.state = (.ok lv, st1))
    (hr : rhs.eval st1 = (.ok rv, st2))
    (hc : relCond op lv rv = some cond) :
    (∀ fuel, runLoop (fuel + 1) L s
        = runLoop fuel (if cond = true then T else s.program.getNextLineNumber L)
            ⟨⟨s.program.sourceLines_, s.program.parsed_, if cond = true then T else INT_MIN⟩,
              st2, s.input, s.output⟩)
    ∧ (cond = false → s.program.getNextLineNumber L = -1 →
        ∀ fuel, runLoop (fuel + 1) L s
          = (Outcome.returned,
              ⟨⟨s.program.sourceLines_, s.program.parsed_, INT_MIN⟩, st2, s.input, s.output⟩))
    ∧ ((s.program.getNextLineNumber L = -1 ∧ ∀ M, s.program.hasLine M = true → M ≤ L)
        ∨ (s.program.hasLine (s.program.getNextLineNumber L) = true
            ∧ L < s.program.getNextLineNumber L
            ∧ ∀ M, s.program.hasLine M = true → L < M → s.program.getNextLineNumber L ≤ M)) := by
  have hL1 : L ≠ -1 := by omega
  have hT1 : T ≠ INT_MIN := by unfold INT_MIN; omega
  have hstep : ∀ fuel, runLoop (fuel + 1) L s
        = runLoop fuel (if cond = true then T else s.program.getNextLineNumber L)
            ⟨⟨s.program.sourceLines_, s.program.parsed_, if cond = true then T else INT_MIN⟩,
              st2, s.input, s.output⟩ := by
    intro fuel
    have hhas : mapFind s.program.sourceLines_ T ≠ none := by
      intro hn
      simp [Program.hasLine, hn] at htarget
    cases cond with
    | true =>
      cases hm : mapFind s.program.sourceLines_ T with
      | none => exact absurd hm hhas
      | some w =>
        simp [runLoop, hL1, runStep, fetchStatement, hstored, Statement.execute, hl, hr, hc,
          jumpTo, Program.hasLine, Program.clearNextLineOverride, Program.resolveNextLine,
          Program.setNextLineOverride, hT1, hm]
    | false =>
      simp [runLoop, hL1, runStep, fetchStatement, hstored, Statement.execute, hl, hr, hc,
        Program.clearNextLineOverride, Program.resolveNextLine, Program.getNextLineNumber]
  refine ⟨hstep, ?_, getNextLineNumber_spec s.program L hsorted⟩
  intro hcf hnext fuel
  rw [hstep fuel, hcf, hnext]
  simp [runLoop_stop]

/-- Witness for C5: the lines `10 IF 1 = 1 THEN 50`, `20 REM`, `50 REM` are
stored through `processLine`; the RUN loop at line 10 continues at line 50. -/
theorem if_run_step_witness :
    processLines 0 ["10 IF 1 = 1 THEN 50", "20 REM", "50 REM"] (Session.initial [])
      = (Outcome.returned,
        ⟨⟨[(10, "10 IF 1 = 1 THEN 50"), (20, "20 REM"), (50, "50 REM")],
          [(10, Statement.If (Expression.Constant 1) (Expression.Constant 1) "=" 50),
            (20, Statement.Rem), (50, Statement.Rem)],
          INT_MIN⟩, [], [], ""⟩)
    ∧ runLoop 1 10
        ⟨⟨[(10, "10 IF 1 = 1 THEN 50"), (20, "20 REM"), (50, "50 REM")],
          [(10, Statement.If (Expression.Constant 1) (Expression.Constant 1) "=" 50),
            (20, Statement.Rem), (50, Statement.Rem)],
          INT_MIN⟩, [], [], ""⟩
      = runLoop 0 50
        ⟨⟨[(10, "10 IF 1 = 1 THEN 50"), (20, "20 REM"), (50, "50 REM")],
          [(10, Statement.If (Expression.Constant 1) (Expression.Constant 1) "=" 50),
            (20, Statement.Rem), (50, Statement.Rem)],
          50⟩, [], [], ""⟩ :=
  ⟨rfl, (if_run_step 10 50
    ⟨⟨[(10, "10 IF 1 = 1 THEN 50"), (20, "20 REM"), (50, "50 REM")],
      [(10, Statement.If (Expression.Constant 1) (Expression.Constant 1) "=" 50),
        (20, Statement.Rem), (50, Statement.Rem)],
      INT_MIN⟩, [], [], ""⟩
    (Expression.Constant 1) (Expression.Constant 1) "=" 1 1 [] [] true
    rfl (by decide) (by decide) rfl (by decide) rfl rfl rfl).1 0⟩

/-- The second example of C5: `10 IF 1 = 2 THEN 50` with lines 20 and 50 stored
continues at line 20, the successor of line 10. -/
theorem if_fall_through_example :
    processLines 0 ["10 IF 1 = 2 THEN 50", "20 REM", "50 REM"] (Session.initial [])
      = (Outcome.returned,
        ⟨⟨[(10, "10 IF 1 = 2 THEN 50"), (20, "20 REM"), (50, "50 REM")],
          [(10, Statement.If (Expression.Constant 1) (Expression.Constant 2) "=" 50),
            (20, Statement.Rem), (50, Statement.Rem)],
          INT_MIN⟩, [], [], ""⟩)
    ∧ runLoop 1 10
        ⟨⟨[(10, "10 IF 1 = 2 THEN 50"), (20, "20 REM"), (50, "50 REM")],
          [(10, Statement.If (Expression.Constant 1) (Expression.Constant 2) "=" 50),
            (20, Statement.Rem), (50, Statement.Rem)],
          INT_MIN⟩, [], [], ""⟩
      = runLoop 0 20
        ⟨⟨[(10, "10 IF 1 = 2 THEN 50"), (20, "20 REM"), (50, "50 REM")],
          [(10, Statement.If (Expression.Constant 1) (Expression.Constant 2) "=" 50),
            (20, Statement.Rem), (50, Statement.Rem)],
          INT_MIN⟩, [], [], ""⟩ :=
  ⟨rfl, rfl⟩

/-! ## C6: IF on its own -/

/-- C6, as stated, fails: `IF ( X = 1 ) > 2 THEN 99` parses, its two sides
evaluate without error, the comparison `1 > 2` does not hold and no error is
raised, yet the execution binds `X`, so the evaluation state is touched. -/
theorem if_execute_touches_state :
    IfStatement (setInput "( X = 1 ) > 2 THEN 99")
      = .ok (Statement.If
          (Expression.Compound "=" (Expression.Identifier "X") (Expression.Constant 1))
          (Expression.Constant 2) ">" 99)
    ∧ relCond ">" 1 2 = some false
    ∧ (Statement.If
          (Expression.Compound "=" (Expression.Identifier "X") (Expression.Constant 1))
          (Expression.Constant 2) ">" 99).execute (Session.initial [])
        = (none, ⟨Program.empty, [("X", 1)], [], ""⟩)
    ∧ (⟨Program.empty, [("X", 1)], [], ""⟩ : Session).state ≠ (Session.initial []).state := by
  refine ⟨rfl, rfl, rfl, ?_⟩
  simp [Session.initial]

/-- C6, amended: when the two sides of an IF evaluate to `lv` and `rv`, leaving
the evaluation state `st2`, and the operator is relational, the execution
throws LINE NUMBER ERROR exactly when the comparison holds and the target is
not stored, and then nothing but the evaluation state differs; when the
comparison holds and the target is stored it returns with the override set to
the target; when the comparison does not hold it returns without an error and
leaves the program store with its override as they were, whether the target is
stored or not.  In every case the evaluation state is `st2`, which is the
state from before when neither side holds an assignment. -/
theorem if_execute (s : Session) (lhs rhs : Expression) (op : String) (T : Int)
    (lv rv : Int) (st1 st2 : EvalState) (cond : Bool)
    (hl : lhs.eval s.state = (.ok lv, st1))
    (hr : rhs.eval st1 = (.ok rv, st2))
    (hc : relCond op lv rv = some cond) :
    (Statement.If lhs rhs op T).execute s
      = (if cond = true then
          if s.program.hasLine T = true then
            (none, ⟨s.program.setNextLineOverride T, st2, s.input, s.output⟩)
          else (some "LINE NUMBER ERROR", ⟨s.program, st2, s.input, s.output⟩)
        else (none, ⟨s.program, st2, s.input, s.output⟩))
    ∧ (((Statement.If lhs rhs op T).execute s).1 = some "LINE NUMBER ERROR"
        ↔ (cond = true ∧ s.program.hasLine T = false))
    ∧ (lhs.noAssign = true → rhs.noAssign = true → st2 = s.state) := by
  have hexec : (Statement.If lhs rhs op T).execute s
      = (if cond = true then
          if s.program.hasLine T = true then
            (none, ⟨s.program.setNextLineOverride T, st2, s.input, s.output⟩)
          else (some "LINE NUMBER ERROR", ⟨s.program, st2, s.input, s.output⟩)
        else (none, ⟨s.program, st2, s.input, s.output⟩)) := by
    cases cond with
    | true =>
      cases hh : s.program.hasLine T <;>
        simp [Statement.execute, hl, hr, hc, jumpTo, hh]
    | false => simp [Statement.execute, hl, hr, hc]
  refine ⟨hexec, ?_, ?_⟩
  · rw [hexec]
    cases cond <;> cases hh : s.program.hasLine T <;> simp
  · intro hnl hnr
    have h1 := noAssign_eval lhs s.state hnl
    rw [hl] at h1
    simp only at h1
    have h2 := noAssign_eval rhs st1 hnr
    rw [hr] at h2
    simp only at h2
    rw [h2, h1]

/-- Witness for C6: `IF X < 5 THEN 99` with `X = 7` and no line 99 is a
no-op. -/
theorem if_execute_witness :
    (Statement.If (Expression.Identifier "X") (Expression.Constant 5) "<" 99).execute
        ⟨Program.empty, [("X", 7)], [], ""⟩
      = (none, ⟨Program.empty, [("X", 7)], [], ""⟩) :=
  (if_execute ⟨Program.empty, [("X", 7)], [], ""⟩ (Expression.Identifier "X")
    (Expression.Constant 5) "<" 99 7 5 [("X", 7)] [("X", 7)] false rfl rfl rfl).1

/-! ## Facts about the RUN loop -/

theorem processLine_RUN (fuel : Nat) (s : Session) :
    processLine fuel "RUN" s = runLoop fuel s.program.getFirstLineNumber s := by
  have hl : nextToken (setInput "RUN") = .ok ("RUN", []) := rfl
  have ht : getTokenType "RUN" ≠ TokenType.NUMBER := by decide
  simp [processLine, hl, ht, hasMoreTokens]

/-- Once the loop ends within `n` rounds, more rounds allowed change nothing. -/
theorem runLoop_add (n extra : Nat) (current : Int) (s : Session)
    (h : (runLoop n current s).1 ≠ Outcome.outOfFuel) :
    runLoop (n + extra) current s = runLoop n current s := by
  induction n generalizing current s with
  | zero =>
    by_cases hc : current = -1
    · subst hc
      simp [runLoop_stop]
    · simp [runLoop, hc] at h
  | succ n ih =>
    have hn : n + 1 + extra = (n + extra) + 1 := by omega
    rw [hn]
    by_cases hc : current = -1
    · simp [runLoop, hc]
    · simp only [runLoop, hc, if_false] at h ⊢
      cases hs : runStep current s with
      | mk r s1 =>
        cases r with
        | error e => rfl
        | crash => rfl
        | ok next =>
          rw [hs] at h
          exact ih next s1 h

theorem runLoop_after_rounds (k m : Nat) (first L : Int) (s0 s : Session)
    (h : runRounds k first s0 = some (L, s)) :
    runLoop (k + m) first s0 = runLoop m L s := by
  induction k generalizing first s0 with
  | zero =>
    simp only [runRounds, Option.some.injEq, Prod.mk.injEq] at h
    rw [h.1, h.2]
    simp
  | succ k ih =>
    have hk : k + 1 + m = (k + m) + 1 := by omega
    rw [hk]
    by_cases hc : first = -1
    · simp [runRounds, hc] at h
    · simp only [runRounds, hc, if_false] at h
      simp only [runLoop, hc, if_false]
      cases hs : runStep first s0 with
      | mk r s1 =>
        rw [hs] at h
        cases r with
        | error e => simp at h
        | crash => simp at h
        | ok next => exact ih next s1 h

theorem execute_error_frame (stmt : Statement) (s s1 : Session) (e : ErrorMsg)
    (h : stmt.execute s = (some e, s1)) :
    s1.output = s.output ∧ s1.input = s.input ∧ s1.program = s.program := by
  cases stmt with
  | Rem => simp [Statement.execute] at h
  | Let exp_ =>
    simp only [Statement.execute] at h
    split at h
    · simp at h
    · simp only [Prod.mk.injEq] at h
      rw [← h.2]
      exact ⟨rfl, rfl, rfl⟩
  | Print exp_ =>
    simp only [Statement.execute] at h
    split at h
    · simp at h
    · simp only [Prod.mk.injEq] at h
      rw [← h.2]
      exact ⟨rfl, rfl, rfl⟩
  | Input var_ => simp [Statement.execute] at h
  | End => simp [Statement.execute] at h
  | Goto target_ =>
    simp only [Statement.execute, jumpTo] at h
    split at h
    · simp only [Prod.mk.injEq] at h
      rw [← h.2]
      exact ⟨rfl, rfl, rfl⟩
    · simp at h
  | If lhs_ rhs_ op_ target_ =>
    simp only [Statement.execute, jumpTo] at h
    split at h
    · simp only [Prod.mk.injEq] at h
      rw [← h.2]
      exact ⟨rfl, rfl, rfl⟩
    · split at h
      · simp only [Prod.mk.injEq] at h
        rw [← h.2]
        exact ⟨rfl, rfl, rfl⟩
      · split at h
        · simp only [Prod.mk.injEq] at h
          rw [← h.2]
          exact ⟨rfl, rfl, rfl⟩
        · split at h
          · simp only [Prod.mk.injEq] at h
            rw [← h.2]
            exact ⟨rfl, rfl, rfl⟩
          · simp at h
        · simp at h

theorem fetchStatement_sourceLines (p p1 : Program) (current : Int)
    (r : Result Statement) (h : fetchStatement p current = (r, p1)) :
    p1.sourceLines_ = p.sourceLines_ := by
  unfold fetchStatement at h
  split at h
  · simp only [Prod.mk.injEq] at h
    rw [← h.2]
  · split at h
    · simp only [Prod.mk.injEq] at h
      rw [← h.2]
    · split at h
      · simp only [Prod.mk.injEq] at h
        rw [← h.2]
      · simp only [Prod.mk.injEq] at h
        rw [← h.2]
      · simp only [Prod.mk.injEq] at h
        rw [← h.2]
        unfold Program.setParsedStatement
        split <;> rfl

theorem runStep_error_frame (current : Int) (s s1 : Session) (e : ErrorMsg)
    (h : runStep current s = (.error e, s1)) :
    s1.output = s.output ∧ s1.input = s.input
      ∧ s1.program.sourceLines_ = s.program.sourceLines_ := by
  unfold runStep at h
  cases hf : fetchStatement s.program current with
  | mk r p1 =>
    have hsrc := fetchStatement_sourceLines _ _ _ _ hf
    rw [hf] at h
    cases r with
    | error e1 =>
      simp only [Prod.mk.injEq] at h
      rw [← h.2]
      exact ⟨rfl, rfl, hsrc⟩
    | crash => simp at h
    | ok stmt =>
      simp only at h
      split at h
      · rename_i e2 s2 hx
        simp only [Prod.mk.injEq] at h
        have := execute_error_frame _ _ _ _ hx
        rw [← h.2]
        refine ⟨this.1, this.2.1, ?_⟩
        rw [this.2.2]
        exact hsrc
      · simp at h

theorem getValue_setValue (state : EvalState) (var : String) (value : Int) :
    (state.setValue var value).getValue var = some value := by
  simp [EvalState.setValue, EvalState.getValue]

/-! ## Facts about the expression parser -/

theorem parse_targetOk (fuel : Nat) :
    (∀ toks e rest, parseAssign fuel toks = .ok (e, rest) → e.targetOk)
    ∧ (∀ toks e rest, parseAdd fuel toks = .ok (e, rest) → e.targetOk)
    ∧ (∀ l toks e rest, parseAddRest fuel l toks = .ok (e, rest) → l.targetOk → e.targetOk)
    ∧ (∀ toks e rest, parseMul fuel toks = .ok (e, rest) → e.targetOk)
    ∧ (∀ l toks e rest, parseMulRest fuel l toks = .ok (e, rest) → l.targetOk → e.targetOk)
    ∧ (∀ toks e rest, parsePrimary fuel toks = .ok (e, rest) → e.targetOk) := by
  induction fuel with
  | zero =>
    refine ⟨?_, ?_, ?_, ?_, ?_, ?_⟩ <;> intros <;> simp_all [parseAssign, parseAdd, parseAddRest, parseMul, parseMulRest, parsePrimary]
  | succ n ih =>
    obtain ⟨ihA, ihAdd, ihAddR, ihMul, ihMulR, ihP⟩ := ih
    refine ⟨?_, ?_, ?_, ?_, ?_, ?_⟩
    · intro toks e rest h
      unfold parseAssign at h
      split at h
      · split at h
        · split at h
          · simp only [Except.ok.injEq, Prod.mk.injEq] at h
            rw [← h.1]
            intro _
            exact ⟨_, rfl⟩
          · simp at h
        · exact ihAdd _ _ _ h
      · exact ihAdd _ _ _ h
    · intro toks e rest h
      unfold parseAdd at h
      split at h
      · rename_i l r hm
        exact ihAddR _ _ _ _ h (ihMul _ _ _ hm)
      · simp at h
    · intro l toks e rest h hl
      unfold parseAddRest at h
      split at h
      · split at h
        · rename_i hop
          split at h
          · refine ihAddR _ _ _ _ h ?_
            intro heq
            subst heq
            simp at hop
          · simp at h
        · simp only [Except.ok.injEq, Prod.mk.injEq] at h
          rw [← h.1]
          exact hl
      · simp only [Except.ok.injEq, Prod.mk.injEq] at h
        rw [← h.1]
        exact hl
    · intro toks e rest h
      unfold parseMul at h
      split at h
      · rename_i l r hm
        exact ihMulR _ _ _ _ h (ihP _ _ _ hm)
      · simp at h
    · intro l toks e rest h hl
      unfold parseMulRest at h
      split at h
      · split at h
        · rename_i hop
          split at h
          · refine ihMulR _ _ _ _ h ?_
            intro heq
            subst heq
            simp at hop
          · simp at h
        · simp only [Except.ok.injEq, Prod.mk.injEq] at h
          rw [← h.1]
          exact hl
      · simp only [Except.ok.injEq, Prod.mk.injEq] at h
        rw [← h.1]
        exact hl
    · intro toks e rest h
      unfold parsePrimary at h
      split at h
      · simp at h
      · split at h
        · split at h
          · simp only [Except.ok.injEq, Prod.mk.injEq] at h
            rw [← h.1]
            trivial
          · simp at h
        · split at h
          · simp only [Except.ok.injEq, Prod.mk.injEq] at h
            rw [← h.1]
            trivial
          · split at h
            · split at h
              · rename_i hm
                simp only [Except.ok.injEq, Prod.mk.injEq] at h
                rw [← h.1]
                exact ihA _ _ _ hm
              · simp at h
              · simp at h
            · simp at h

theorem parseExp_targetOk (scanner : TokenScanner) (e : Expression)
    (h : parseExp scanner = .ok e) : e.targetOk := by
  unfold parseExp at h
  split at h
  · rename_i e1 hm
    simp only [Except.ok.injEq] at h
    rw [← h]
    exact (parse_targetOk _).1 _ _ _ hm
  · simp at h
  · simp at h

/-! ## C7: the LET / PRINT / END scenario -/

/-- C7: from the empty session the four lines `10 LET X = 3`,
`20 LET Y = X * 2 + 1`, `30 PRINT Y`, `40 END` are stored; RUN, given four
rounds or more, returns without an error, has written exactly the line `7`,
and leaves `X = 3` and `Y = 7`. -/
theorem run_let_print_end (extra : Nat) :
    ∃ s4 s5 : Session,
      processLines 0 ["10 LET X = 3", "20 LET Y = X * 2 + 1", "30 PRINT Y", "40 END"]
          (Session.initial []) = (Outcome.returned, s4)
      ∧ processLine (4 + extra) "RUN" s4 = (Outcome.returned, s5)
      ∧ s5.output = "7\n"
      ∧ s5.state.getValue "X" = some 3
      ∧ s5.state.getValue "Y" = some 7
      ∧ ∀ var, var ≠ "X" → var ≠ "Y" → s5.state.getValue var = none := by
  refine ⟨(processLines 0 ["10 LET X = 3", "20 LET Y = X * 2 + 1", "30 PRINT Y", "40 END"]
      (Session.initial [])).2,
    (runLoop 4 10 (processLines 0 ["10 LET X = 3", "20 LET Y = X * 2 + 1", "30 PRINT Y",
      "40 END"] (Session.initial [])).2).2, rfl, ?_, rfl, rfl, rfl, ?_⟩
  · rw [processLine_RUN, runLoop_add 4 extra _ _ (by decide)]
    rfl
  · intro var hx hy
    have h : (runLoop 4 10 (processLines 0 ["10 LET X = 3", "20 LET Y = X * 2 + 1",
        "30 PRINT Y", "40 END"] (Session.initial [])).2).2.state = [("Y", 7), ("X", 3)] := rfl
    rw [h]
    have hx1 : ¬ "X" = var := fun e => hx e.symm
    have hy1 : ¬ "Y" = var := fun e => hy e.symm
    simp [EvalState.getValue, hx1, hy1]

/-! ## C8: the INPUT / IF scenario -/

/-- C8, as stated, fails for the input `-5`: the program `10 INPUT N`,
`20 IF N > 0 THEN 40`, `30 PRINT 0`, `40 PRINT 1`, `50 END` writes the prompt,
then `0`, and then, going on from line 30 to line 40, also `1`. -/
theorem run_input_negative_prints_zero_then_one :
    (processLines 5 ["10 INPUT N", "20 IF N > 0 THEN 40", "30 PRINT 0", "40 PRINT 1", "50 END",
        "RUN"] (Session.initial ["-5"])).1 = Outcome.returned
    ∧ (processLines 5 ["10 INPUT N", "20 IF N > 0 THEN 40", "30 PRINT 0", "40 PRINT 1",
        "50 END", "RUN"] (Session.initial ["-5"])).2.output = " ? 0\n1\n"
    ∧ (processLines 5 ["10 INPUT N", "20 IF N > 0 THEN 40", "30 PRINT 0", "40 PRINT 1",
        "50 END", "RUN"] (Session.initial ["-5"])).2.output ≠ " ? 0\n" := by
  refine ⟨rfl, rfl, ?_⟩
  have h : (processLines 5 ["10 INPUT N", "20 IF N > 0 THEN 40", "30 PRINT 0", "40 PRINT 1",
      "50 END", "RUN"] (Session.initial ["-5"])).2.output = " ? 0\n1\n" := rfl
  rw [h]
  decide

/-- C8, amended: for the stored program `10 INPUT N`, `20 IF N > 0 THEN 40`,
`30 PRINT 0`, `40 PRINT 1`, `50 END`, RUN with the input line `5` writes the
prompt and the line `1`; RUN with the input line `-5` writes the prompt, the
line `0` and the line `1`.  Both runs return without an error once five rounds
are allowed. -/
theorem run_input_if_print (extra : Nat) :
    ∃ s5 : Program,
      (∀ input, processLines 0 ["10 INPUT N", "20 IF N > 0 THEN 40", "30 PRINT 0",
          "40 PRINT 1", "50 END"] (Session.initial input)
            = (Outcome.returned, ⟨s5, [], input, ""⟩))
      ∧ (processLine (5 + extra) "RUN" ⟨s5, [], ["5"], ""⟩).1 = Outcome.returned
      ∧ (processLine (5 + extra) "RUN" ⟨s5, [], ["5"], ""⟩).2.output = " ? 1\n"
      ∧ (processLine (5 + extra) "RUN" ⟨s5, [], ["-5"], ""⟩).1 = Outcome.returned
      ∧ (processLine (5 + extra) "RUN" ⟨s5, [], ["-5"], ""⟩).2.output = " ? 0\n1\n" := by
  refine ⟨(processLines 0 ["10 INPUT N", "20 IF N > 0 THEN 40", "30 PRINT 0",
          "40 PRINT 1", "50 END"] (Session.initial [])).2.program, fun input => rfl, ?_, ?_, ?_, ?_⟩
  · rw [processLine_RUN, runLoop_add 5 extra _ _ (by decide)]
    rfl
  · rw [processLine_RUN, runLoop_add 5 extra _ _ (by decide)]
    rfl
  · rw [processLine_RUN, runLoop_add 5 extra _ _ (by decide)]
    rfl
  · rw [processLine_RUN, runLoop_add 5 extra _ _ (by decide)]
    rfl

/-! ## C9: LET -/

/-- C9: every statement built by `LetStatement` is an assignment of an
expression `e` to an identifier `id`; whenever `e` evaluates to `v` under the
state of the session, the execution returns normally and afterwards the
identifier `id` evaluates to `v`. -/
theorem let_execute_assigns (scanner : TokenScanner) (stmt : Statement)
    (hparse : LetStatement scanner = .ok stmt) :
    ∃ id e, stmt = Statement.Let (Expression.Compound "=" (Expression.Identifier id) e)
      ∧ ∀ (s : Session) (v : Int) (st1 : EvalState), e.eval s.state = (.ok v, st1) →
          ∃ s1 : Session, stmt.execute s = (none, s1)
            ∧ s1.state = st1.setValue id v
            ∧ (Expression.Identifier id).eval s1.state = (.ok v, s1.state) := by
  unfold LetStatement at hparse
  split at hparse
  · simp at hparse
  · rename_i op lhs rhs hp
    split at hparse
    · simp at hparse
    · rename_i hop
      simp only [ne_eq, not_not] at hop
      subst hop
      have ht := parseExp_targetOk _ _ hp
      obtain ⟨id, hid⟩ := ht rfl
      subst hid
      simp only [Except.ok.injEq] at hparse
      refine ⟨id, rhs, hparse.symm, ?_⟩
      intro s v st1 hev
      refine ⟨{ s with state := st1.setValue id v }, ?_, rfl, ?_⟩
      · rw [← hparse]
        simp [Statement.execute, Expression.eval, hev]
      · simp [Expression.eval, getValue_setValue]
  · simp at hparse

/-- Witness for C9: `LET Y = X * 2 + 1` under `X = 3` binds `Y` to 7. -/
theorem let_execute_assigns_witness :
    ∃ id e, Statement.Let (Expression.Compound "=" (Expression.Identifier "Y")
          (Expression.Compound "+"
            (Expression.Compound "*" (Expression.Identifier "X") (Expression.Constant 2))
            (Expression.Constant 1)))
        = Statement.Let (Expression.Compound "=" (Expression.Identifier id) e)
      ∧ ∀ (s : Session) (v : Int) (st1 : EvalState), e.eval s.state = (.ok v, st1) →
          ∃ s1 : Session, (Statement.Let (Expression.Compound "=" (Expression.Identifier "Y")
              (Expression.Compound "+"
                (Expression.Compound "*" (Expression.Identifier "X") (Expression.Constant 2))
                (Expression.Constant 1)))).execute s = (none, s1)
            ∧ s1.state = st1.setValue id v
            ∧ (Expression.Identifier id).eval s1.state = (.ok v, s1.state) :=
  let_execute_assigns (setInput "Y = X * 2 + 1") _ rfl

/-! ## C10: an error ends the run -/

/-- C10: when the RUN loop, started on the first line of the store, has gone
through `k` rounds without an error and reached line `L` with session `s`, and
the round at `L` throws `e` leaving the session `s1`, then RUN, given more
than `k` rounds, throws `e` with the session `s1`: no round follows the failing
one.  The output, the pending input and the source lines in `s1` are those the
first `k` rounds left in `s`. -/
theorem run_aborts_on_error (k : Nat) (L : Int) (s0 s s1 : Session) (e : ErrorMsg)
    (hreach : runRounds k s0.program.getFirstLineNumber s0 = some (L, s))
    (hL : L ≠ -1)
    (hfail : runStep L s = (.error e, s1)) :
    (∀ extra, processLine (k + (1 + extra)) "RUN" s0 = (Outcome.thrown e, s1))
    ∧ s1.output = s.output ∧ s1.input = s.input
    ∧ s1.program.sourceLines_ = s.program.sourceLines_ := by
  refine ⟨fun extra => ?_, runStep_error_frame L s s1 e hfail⟩
  rw [processLine_RUN, runLoop_after_rounds k (1 + extra) _ L s0 s hreach]
  have h1 : 1 + extra = extra + 1 := by omega
  rw [h1]
  simp [runLoop, hL, hfail]

/-- Witness for C10: with `10 PRINT 1`, `20 PRINT 5 / 0`, `30 PRINT 2` stored,
RUN writes `1` and throws DIVIDE BY ZERO at line 20; line 30 is not run. -/
theorem run_aborts_on_error_witness :
    processLine 2 "RUN"
        (processLines 0 ["10 PRINT 1", "20 PRINT 5 / 0", "30 PRINT 2"] (Session.initial [])).2
      = (Outcome.thrown "DIVIDE BY ZERO",
        { (processLines 0 ["10 PRINT 1", "20 PRINT 5 / 0", "30 PRINT 2"]
            (Session.initial [])).2 with output := "1\n" }) :=
  (run_aborts_on_error 1 20
    (processLines 0 ["10 PRINT 1", "20 PRINT 5 / 0", "30 PRINT 2"] (Session.initial [])).2
    { (processLines 0 ["10 PRINT 1", "20 PRINT 5 / 0", "30 PRINT 2"]
        (Session.initial [])).2 with output := "1\n" }
    { (processLines 0 ["10 PRINT 1", "20 PRINT 5 / 0", "30 PRINT 2"]
        (Session.initial [])).2 with output := "1\n" }
    "DIVIDE BY ZERO" rfl (by decide) rfl).1 0

/-! ## C11: first and next line number -/

theorem applyOps_ordered (ops : List StoreOp) (p : Program) (h : p.Ordered) :
    (applyOps ops p).Ordered := by
  induction ops generalizing p with
  | nil => exact h
  | cons op rest ih =>
    cases op with
    | add lineNumber line => exact ih _ (addSourceLine_ordered p lineNumber line h)
    | remove lineNumber => exact ih _ (removeSourceLine_ordered p lineNumber h)

/-- On an ordered store `getFirstLineNumber` is -1 when nothing is stored and
otherwise the least stored line number. -/
theorem getFirstLineNumber_spec (p : Program) (hsorted : p.Ordered) :
    (p.getFirstLineNumber = -1 ∧ ∀ M, p.hasLine M = false)
    ∨ (p.hasLine p.getFirstLineNumber = true
        ∧ ∀ M, p.hasLine M = true → p.getFirstLineNumber ≤ M) := by
  cases hs : p.sourceLines_ with
  | nil =>
    left
    simp [Program.getFirstLineNumber, Program.hasLine, hs, mapFind]
  | cons hd tl =>
    obtain ⟨k, v⟩ := hd
    right
    have hfirst : p.getFirstLineNumber = k := by simp [Program.getFirstLineNumber, hs]
    rw [hfirst]
    refine ⟨by simp [Program.hasLine, hs, mapFind], fun M hM => ?_⟩
    obtain ⟨w, hw⟩ := (hasLine_iff_mem p M).mp hM
    rw [hs] at hw
    unfold Program.Ordered at hsorted
    rw [hs, List.pairwise_cons] at hsorted
    rcases List.mem_cons.mp hw with h1 | h1
    · simp only [Prod.mk.injEq] at h1
      omega
    · have := hsorted.1 (M, w) h1
      simp only at this
      omega

/-- C11: on the store built from the empty one by any sequence of
`addSourceLine` and `removeSourceLine` calls, `getFirstLineNumber` is -1 when
no line is stored and otherwise the least stored line number, and for every
integer `n`, `getNextLineNumber n` is -1 when no stored line number exceeds `n`
and otherwise the least stored line number above `n`. -/
theorem first_and_next_line_number (ops : List StoreOp) (n : Int) :
    (((applyOps ops Program.empty).getFirstLineNumber = -1
        ∧ ∀ M, (applyOps ops Program.empty).hasLine M = false)
      ∨ ((applyOps ops Program.empty).hasLine
            (applyOps ops Program.empty).getFirstLineNumber = true
          ∧ ∀ M, (applyOps ops Program.empty).hasLine M = true →
              (applyOps ops Program.empty).getFirstLineNumber ≤ M))
    ∧ (((applyOps ops Program.empty).getNextLineNumber n = -1
        ∧ ∀ M, (applyOps ops Program.empty).hasLine M = true → M ≤ n)
      ∨ ((applyOps ops Program.empty).hasLine
            ((applyOps ops Program.empty).getNextLineNumber n) = true
          ∧ n < (applyOps ops Program.empty).getNextLineNumber n
          ∧ ∀ M, (applyOps ops Program.empty).hasLine M = true → n < M →
              (applyOps ops Program.empty).getNextLineNumber n ≤ M)) :=
  ⟨getFirstLineNumber_spec _ (applyOps_ordered ops _ empty_ordered),
    getNextLineNumber_spec _ n (applyOps_ordered ops _ empty_ordered)⟩

/-- An instance of C11: lines 30, 10 and 20 are added in that order and line
10 is removed; the first line number is 20, the one after 20 is 30, the one
after 25 is 30 and there is none after 30. -/
theorem first_and_next_line_number_example :
    (applyOps [StoreOp.add 30 "30 END", StoreOp.add 10 "10 REM", StoreOp.add 20 "20 REM",
        StoreOp.remove 10] Program.empty).getFirstLineNumber = 20
    ∧ (applyOps [StoreOp.add 30 "30 END", StoreOp.add 10 "10 REM", StoreOp.add 20 "20 REM",
        StoreOp.remove 10] Program.empty).getNextLineNumber 20 = 30
    ∧ (applyOps [StoreOp.add 30 "30 END", StoreOp.add 10 "10 REM", StoreOp.add 20 "20 REM",
        StoreOp.remove 10] Program.empty).getNextLineNumber 25 = 30
    ∧ (applyOps [StoreOp.add 30 "30 END", StoreOp.add 10 "10 REM", StoreOp.add 20 "20 REM",
        StoreOp.remove 10] Program.empty).getNextLineNumber 30 = -1 := by
  decide

/-! ## C13: the operand of INPUT -/

/-- C13, as stated, fails: the operand `5` is a token of class NUMBER and the
constructor accepts it, so `INPUT 5` is a statement; run in immediate mode
with the input line `7` it binds the name `5`. -/
theorem input_accepts_number :
    getTokenType "5" = TokenType.NUMBER
    ∧ InputStatement (setInput "5") = .ok (Statement.Input "5")
    ∧ parseStatementForProgram (setInput "INPUT 5") = .ok (Statement.Input "5")
    ∧ processLine 0 "INPUT 5" (Session.initial ["7"])
        = (Outcome.returned, ⟨Program.empty, [("5", 7)], [], " ? "⟩) :=
  ⟨rfl, rfl, rfl, rfl⟩

/-- C13, amended: the constructor of INPUT succeeds exactly when the scanner
holds one single token, of class WORD or NUMBER, that is not a reserved word,
and the statement then reads into the name spelled by that token; in every
other case (no token, an operator token, a reserved word, a token after the
first) it throws SYNTAX ERROR. -/
theorem input_constructor (scanner : TokenScanner) :
    (∀ stmt, InputStatement scanner = .ok stmt ↔
      ∃ t, scanner = [t]
        ∧ (getTokenType t = TokenType.WORD ∨ getTokenType t = TokenType.NUMBER)
        ∧ isKeyword t = false ∧ stmt = Statement.Input t)
    ∧ (∀ e, InputStatement scanner = .error e → e = "SYNTAX ERROR") := by
  have hempty : getTokenType "" = TokenType.EOF := rfl
  cases scanner with
  | nil =>
    constructor
    · intro stmt
      simp [InputStatement, nextToken]
    · intro e h
      simp [InputStatement, nextToken] at h
      exact h.symm
  | cons t rest =>
    by_cases hu : isUnrecognized t = true
    · have hop : getTokenType t = TokenType.OPERATOR := by
        simp only [isUnrecognized, Bool.and_eq_true, decide_eq_true_eq] at hu
        exact hu.1
      constructor
      · intro stmt
        simp [InputStatement, nextToken, hu, hop]
      · intro e h
        simp [InputStatement, nextToken, hu] at h
        exact h.symm
    · simp only [Bool.not_eq_true] at hu
      by_cases ht : t = ""
      · subst ht
        constructor
        · intro stmt
          simp [InputStatement, nextToken, hu, hempty]
        · intro e h
          simp [InputStatement, nextToken, hu] at h
          exact h.symm
      · by_cases hty : getTokenType t = TokenType.WORD ∨ getTokenType t = TokenType.NUMBER
        · have hc : ¬ (¬ getTokenType t = TokenType.WORD ∧ ¬ getTokenType t = TokenType.NUMBER) :=
            fun hn => hty.elim hn.1 hn.2
          cases hk : isKeyword t with
          | true =>
            constructor
            · intro stmt
              simp [InputStatement, nextToken, hu, ht, hc, hk]
            · intro e h
              simp [InputStatement, nextToken, hu, ht, hc, hk] at h
              exact h.symm
          | false =>
            cases rest with
            | nil =>
              constructor
              · intro stmt
                simp [InputStatement, nextToken, hu, ht, hc, hk, hasMoreTokens, hty]
                exact eq_comm
              · intro e h
                simp [InputStatement, nextToken, hu, ht, hc, hk, hasMoreTokens] at h
            | cons u rest1 =>
              constructor
              · intro stmt
                simp [InputStatement, nextToken, hu, ht, hc, hk, hasMoreTokens]
              · intro e h
                simp [InputStatement, nextToken, hu, ht, hc, hk, hasMoreTokens] at h
                exact h.symm
        · have hc : ¬ getTokenType t = TokenType.WORD ∧ ¬ getTokenType t = TokenType.NUMBER :=
            ⟨fun h1 => hty (Or.inl h1), fun h1 => hty (Or.inr h1)⟩
          constructor
          · intro stmt
            simp [InputStatement, nextToken, hu, ht, hc]
          · intro e h
            simp [InputStatement, nextToken, hu, ht, hc] at h
            exact h.symm

/-! ## C14: what immediate mode refuses -/

/-- C14: when the first token of the input line is not a number and is none of
LIST, RUN, CLEAR, QUIT, LET, PRINT, INPUT, `processLine` throws SYNTAX ERROR
and the session after the call, program store and evaluation state included,
is the session before it. -/
theorem immediate_rejects_other (fuel : Nat) (line : String) (s : Session)
    (first : String) (scanner : TokenScanner)
    (hfirst : nextToken (setInput line) = .ok (first, scanner))
    (hne : first ≠ "")
    (hnum : getTokenType first ≠ TokenType.NUMBER)
    (hnot : first ∉ ["LIST", "RUN", "CLEAR", "QUIT", "LET", "PRINT", "INPUT"]) :
    processLine fuel line s = (Outcome.thrown "SYNTAX ERROR", s) := by
  simp only [List.mem_cons, List.mem_singleton, List.not_mem_nil, or_false, not_or] at hnot
  obtain ⟨h1, h2, h3, h4, h5, h6, h7⟩ := hnot
  simp [processLine, hfirst, hne, hnum, h1, h2, h3, h4, parseStatementImmediate, h5, h6, h7]

/-- Witness for C14: `GOTO 10` without a line number is refused and nothing
changes. -/
theorem immediate_rejects_other_witness :
    processLine 0 "GOTO 10" ⟨⟨[(10, "10 REM")], [(10, Statement.Rem)], INT_MIN⟩, [("X", 1)], [], ""⟩
      = (Outcome.thrown "SYNTAX ERROR",
          ⟨⟨[(10, "10 REM")], [(10, Statement.Rem)], INT_MIN⟩, [("X", 1)], [], ""⟩) :=
  immediate_rejects_other 0 "GOTO 10" _ "GOTO" ["10"] rfl (by decide) (by decide) (by decide)

/-- The other cases named in C14: REM, END, IF and an unknown word. -/
theorem immediate_rejects_examples (fuel : Nat) (s : Session) :
    processLine fuel "REM note" s = (Outcome.thrown "SYNTAX ERROR", s)
    ∧ processLine fuel "END" s = (Outcome.thrown "SYNTAX ERROR", s)
    ∧ processLine fuel "IF 1 = 1 THEN 10" s = (Outcome.thrown "SYNTAX ERROR", s)
    ∧ processLine fuel "HELLO" s = (Outcome.thrown "SYNTAX ERROR", s) :=
  ⟨immediate_rejects_other fuel "REM note" s "REM" ["note"] rfl (by decide) (by decide)
      (by decide),
    immediate_rejects_other fuel "END" s "END" [] rfl (by decide) (by decide) (by decide),
    immediate_rejects_other fuel "IF 1 = 1 THEN 10" s "IF" ["1", "=", "1", "THEN", "10"] rfl
      (by decide) (by decide) (by decide),
    immediate_rejects_other fuel "HELLO" s "HELLO" [] rfl (by decide) (by decide) (by decide)⟩

/-! ## C15: END -/

theorem runTrace_after_rounds (k m : Nat) (first L : Int) (s0 s : Session)
    (h : runRounds k first s0 = some (L, s)) :
    runTrace (k + m) first s0 = runTrace k first s0 ++ runTrace m L s := by
  induction k generalizing first s0 with
  | zero =>
    simp only [runRounds, Option.some.injEq, Prod.mk.injEq] at h
    rw [h.1, h.2]
    simp [runTrace]
  | succ k ih =>
    have hk : k + 1 + m = (k + m) + 1 := by omega
    rw [hk]
    by_cases hc : first = -1
    · simp [runRounds, hc] at h
    · simp only [runRounds, hc, if_false] at h
      simp only [runTrace, hc, if_false]
      cases hs : runStep first s0 with
      | mk r s1 =>
        rw [hs] at h
        cases r with
        | error e => simp at h
        | crash => simp at h
        | ok next =>
          simp only [List.cons_append, List.cons.injEq, true_and]
          exact ih next s1 h

/-- C15: executing END only sets the override to -1.  When the RUN loop has
reached line `L` after `k` rounds and line `L` holds END, RUN returns without
an error right after that round: the session it leaves has the evaluation
state, the input and the output of the moment END was reached, and the rounds
run are the first `k` ones followed by the one at `L`. -/
theorem end_stops_run (k : Nat) (L : Int) (s0 s : Session)
    (hreach : runRounds k s0.program.getFirstLineNumber s0 = some (L, s))
    (hL : L ≠ -1)
    (hend : s.program.getParsedStatement L = some Statement.End) :
    Statement.End.execute s
        = (none, ⟨⟨s.program.sourceLines_, s.program.parsed_, -1⟩, s.state, s.input, s.output⟩)
    ∧ (∀ extra, processLine (k + (1 + extra)) "RUN" s0
        = (Outcome.returned,
            ⟨⟨s.program.sourceLines_, s.program.parsed_, -1⟩, s.state, s.input, s.output⟩))
    ∧ (∀ extra, runTrace (k + (1 + extra)) s0.program.getFirstLineNumber s0
        = runTrace k s0.program.getFirstLineNumber s0 ++ [L]) := by
  have hmin : (-1 : Int) ≠ INT_MIN := by decide
  have hstep : runStep L s
      = (.ok (-1), ⟨⟨s.program.sourceLines_, s.program.parsed_, -1⟩, s.state, s.input,
          s.output⟩) := by
    simp [runStep, fetchStatement, hend, Statement.execute, Program.setNextLineOverride,
      Program.clearNextLineOverride, Program.resolveNextLine, hmin]
  refine ⟨by simp [Statement.execute, Program.setNextLineOverride], fun extra => ?_,
    fun extra => ?_⟩
  · rw [processLine_RUN, runLoop_after_rounds k (1 + extra) _ L s0 s hreach]
    have h1 : 1 + extra = extra + 1 := by omega
    rw [h1]
    simp [runLoop, hL, hstep, runLoop_stop]
  · rw [runTrace_after_rounds k (1 + extra) _ L s0 s hreach]
    have h1 : 1 + extra = extra + 1 := by omega
    rw [h1]
    cases extra <;> simp [runTrace, hL, hstep]

/-- Witness for C15: with `10 PRINT 1`, `20 END`, `30 PRINT 2` stored, RUN
writes `1` and returns after line 20; line 30 is not run. -/
theorem end_stops_run_witness :
    processLine 2 "RUN"
        (processLines 0 ["10 PRINT 1", "20 END", "30 PRINT 2"] (Session.initial [])).2
      = (Outcome.returned,
          ⟨⟨[(10, "10 PRINT 1"), (20, "20 END"), (30, "30 PRINT 2")],
              [(10, Statement.Print (Expression.Constant 1)), (20, Statement.End),
                (30, Statement.Print (Expression.Constant 2))], -1⟩, [], [], "1\n"⟩) :=
  (end_stops_run 1 20
    (processLines 0 ["10 PRINT 1", "20 END", "30 PRINT 2"] (Session.initial [])).2
    ⟨⟨[(10, "10 PRINT 1"), (20, "20 END"), (30, "30 PRINT 2")],
        [(10, Statement.Print (Expression.Constant 1)), (20, Statement.End),
          (30, Statement.Print (Expression.Constant 2))], INT_MIN⟩, [], [], "1\n"⟩
    rfl (by decide) rfl).2.1 0

/-! ## C16: executing INPUT -/

theorem getValue_setValue_other (state : EvalState) (var other : String) (value : Int)
    (h : other ≠ var) :
    (state.setValue var value).getValue other = state.getValue other := by
  have hv : ¬ var = other := fun e => h e.symm
  simp only [EvalState.setValue, EvalState.getValue, hv, if_false]
  induction state with
  | nil => rfl
  | cons hd tl ih =>
    obtain ⟨k, w⟩ := hd
    by_cases hk : k = var
    · have hko : ¬ k = other := fun e => h (e.symm.trans hk)
      simp only [List.filter_cons, hk, ne_eq, not_true_eq_false, decide_False, EvalState.getValue,
        hko, if_false]
      subst hk
      simp only [hko, if_false]
      exact ih
    · simp only [List.filter_cons, hk, ne_eq, not_false_eq_true, decide_True, if_true,
        EvalState.getValue]
      by_cases hko : k = other
      · simp [hko]
      · simp only [hko, if_false]
        exact ih

theorem inputLoop_retries (var : String) (bad tail : List String) (state : EvalState)
    (out : String) (hbad : ∀ l ∈ bad, stringToInteger (trim l) = none) :
    inputLoop var (bad ++ tail) state out
      = inputLoop var tail state (out ++ promptRetries bad.length) := by
  induction bad generalizing out with
  | nil => simp [promptRetries]
  | cons l rest ih =>
    have hl : stringToInteger (trim l) = none := hbad l (List.mem_cons_self _ _)
    have hrest : ∀ x ∈ rest, stringToInteger (trim x) = none :=
      fun x hx => hbad x (List.mem_cons_of_mem _ hx)
    have hstep : inputLoop var (l :: (rest ++ tail)) state out
        = inputLoop var (rest ++ tail) state (out ++ " ? " ++ "INVALID NUMBER\n") := by
      simp only [inputLoop, hl]
    rw [List.cons_append, hstep, ih _ hrest]
    simp [promptRetries, String.append_assoc]

/-- C16: executing `INPUT v` never throws.  When the pending input starts with
`k` lines that are not integers followed by a line that is the integer `n`,
the execution writes `k` times the prompt followed by INVALID NUMBER and then
the prompt once more, consumes these `k + 1` lines, binds `v` to `n` and
leaves the value of every other variable as it was.  When the pending input
consists of `k` lines that are not integers and then ends, it writes the same
and returns with the evaluation state unchanged. -/
theorem input_execute (v : String) (s : Session) (bad : List String)
    (hbad : ∀ l ∈ bad, stringToInteger (trim l) = none) :
    (∀ s1 : Session, ((Statement.Input v).execute s1).1 = none)
    ∧ (∀ good n rest, stringToInteger (trim good) = some n →
        (Statement.Input v).execute ⟨s.program, s.state, bad ++ good :: rest, s.output⟩
            = (none, ⟨s.program, s.state.setValue v n, rest,
                s.output ++ promptRetries bad.length ++ " ? "⟩)
          ∧ (s.state.setValue v n).getValue v = some n
          ∧ ∀ w, w ≠ v → (s.state.setValue v n).getValue w = s.state.getValue w)
    ∧ (Statement.Input v).execute ⟨s.program, s.state, bad, s.output⟩
        = (none, ⟨s.program, s.state, [], s.output ++ promptRetries bad.length ++ " ? "⟩) := by
  refine ⟨fun s1 => by simp [Statement.execute], ?_, ?_⟩
  · intro good n rest hgood
    refine ⟨?_, getValue_setValue _ _ _, fun w hw => getValue_setValue_other _ _ _ _ hw⟩
    simp [Statement.execute, inputLoop_retries v bad (good :: rest) _ _ hbad, inputLoop, hgood]
  · have h := inputLoop_retries v bad [] s.state s.output hbad
    simp only [List.append_nil] at h
    simp [Statement.execute, h, inputLoop]

/-- Witness for C16: the pending input is `abc`, `1x`, ` 42 `, `9`; `INPUT N`
retries twice, binds `N` to 42 and leaves `9` unread. -/
theorem input_execute_witness :
    (Statement.Input "N").execute ⟨Program.empty, [("M", 1)], ["abc", "1x", " 42 ", "9"], ""⟩
      = (none, ⟨Program.empty, [("N", 42), ("M", 1)], ["9"],
          " ? INVALID NUMBER\n ? INVALID NUMBER\n ? "⟩) :=
  ((input_execute "N" ⟨Program.empty, [("M", 1)], [], ""⟩ ["abc", "1x"]
    (by decide)).2.1 " 42 " 42 ["9"] rfl).1


/-! ## Facts about what a run changes -/

/-- Executing a statement changes nothing of the program store but the
override; the override afterwards is the one from before, or -1, or a stored
line number. -/
theorem execute_program (stmt : Statement) (s : Session) :
    (stmt.execute s).2.program.sourceLines_ = s.program.sourceLines_
    ∧ (stmt.execute s).2.program.parsed_ = s.program.parsed_
    ∧ ((stmt.execute s).2.program.nextLineOverride_ = s.program.nextLineOverride_
        ∨ (stmt.execute s).2.program.nextLineOverride_ = -1
        ∨ s.program.hasLine (stmt.execute s).2.program.nextLineOverride_ = true) := by
  have hjump : ∀ (T : Int) (s1 : Session),
      (jumpTo T s1).2.program.sourceLines_ = s1.program.sourceLines_
      ∧ (jumpTo T s1).2.program.parsed_ = s1.program.parsed_
      ∧ ((jumpTo T s1).2.program.nextLineOverride_ = s1.program.nextLineOverride_
          ∨ (jumpTo T s1).2.program.nextLineOverride_ = -1
          ∨ s1.program.hasLine (jumpTo T s1).2.program.nextLineOverride_ = true) := by
    intro T s1
    unfold jumpTo
    cases hh : s1.program.hasLine T
    · simp
    · simp [Program.setNextLineOverride, hh]
  cases stmt with
  | Rem => simp [Statement.execute]
  | Let exp_ =>
    simp only [Statement.execute]
    split <;> simp
  | Print exp_ =>
    simp only [Statement.execute]
    split <;> simp
  | Input var_ => simp [Statement.execute]
  | End => simp [Statement.execute, Program.setNextLineOverride]
  | Goto target_ => exact hjump target_ s
  | If lhs_ rhs_ op_ target_ =>
    simp only [Statement.execute]
    split
    · simp
    · split
      · simp
      · split
        · simp
        · exact hjump target_ _
        · simp

theorem fetchStatement_keysAgree (p : Program) (current : Int) (h : p.KeysAgree) :
    (fetchStatement p current).2 = p := by
  unfold fetchStatement
  cases hp : p.getParsedStatement current with
  | some stmt => rfl
  | none =>
    have hsrc : mapFind p.sourceLines_ current = none := by
      have := h current
      unfold Program.getParsedStatement at hp
      rw [hp] at this
      cases hm : mapFind p.sourceLines_ current with
      | none => rfl
      | some w => simp [hm] at this
    simp only
    split
    · rfl
    · split
      · rfl
      · rfl
      · simp [Program.setParsedStatement, hsrc]

theorem runStep_program (current : Int) (s : Session) (h : s.program.KeysAgree) :
    (runStep current s).2.program.sourceLines_ = s.program.sourceLines_
    ∧ (runStep current s).2.program.parsed_ = s.program.parsed_ := by
  have hf := fetchStatement_keysAgree s.program current h
  unfold runStep
  cases hfs : fetchStatement s.program current with
  | mk r p1 =>
    rw [hfs] at hf
    simp only at hf
    subst hf
    cases r with
    | error e => exact ⟨rfl, rfl⟩
    | crash => exact ⟨rfl, rfl⟩
    | ok stmt =>
      simp only
      have he := execute_program stmt
        ⟨s.program.clearNextLineOverride, s.state, s.input, s.output⟩
      cases hx : stmt.execute ⟨s.program.clearNextLineOverride, s.state, s.input, s.output⟩ with
      | mk r1 s1 =>
        rw [hx] at he
        cases r1 with
        | some e => exact ⟨he.1, he.2.1⟩
        | none => exact ⟨he.1, he.2.1⟩

theorem keysAgree_of_maps (p q : Program) (hs : q.sourceLines_ = p.sourceLines_)
    (hp : q.parsed_ = p.parsed_) (h : p.KeysAgree) : q.KeysAgree := by
  intro N
  rw [hs, hp]
  exact h N

theorem runLoop_program (fuel : Nat) (current : Int) (s : Session) (h : s.program.KeysAgree) :
    (runLoop fuel current s).2.program.sourceLines_ = s.program.sourceLines_
    ∧ (runLoop fuel current s).2.program.parsed_ = s.program.parsed_ := by
  induction fuel generalizing current s with
  | zero =>
    unfold runLoop
    split <;> exact ⟨rfl, rfl⟩
  | succ n ih =>
    unfold runLoop
    split
    · exact ⟨rfl, rfl⟩
    · have hs := runStep_program current s h
      cases hr : runStep current s with
      | mk r s1 =>
        rw [hr] at hs
        cases r with
        | error e => exact hs
        | crash => exact hs
        | ok next =>
          simp only
          have h1 := ih next s1 (keysAgree_of_maps _ _ hs.1 hs.2 h)
          exact ⟨h1.1.trans hs.1, h1.2.trans hs.2⟩

theorem store_keysAgree (p : Program) (N : Int) (line : String) (stmt : Statement)
    (h : p.KeysAgree) : ((p.addSourceLine N line).setParsedStatement N stmt).KeysAgree := by
  intro M
  by_cases hM : M = N
  · subst hM
    have h2 := stored_parsed p M line stmt
    unfold Program.getParsedStatement at h2
    rw [stored_source, h2]
    rfl
  · have h2 := stored_parsed_other p N M line stmt hM
    unfold Program.getParsedStatement at h2
    rw [stored_source_other p N M line stmt hM, h2]
    exact h M

theorem removeSourceLine_keysAgree (p : Program) (N : Int) (h : p.KeysAgree) :
    (p.removeSourceLine N).KeysAgree := by
  intro M
  by_cases hM : M = N
  · subst hM
    simp [Program.removeSourceLine, mapFind_mapErase_self]
  · simp only [Program.removeSourceLine, mapFind_mapErase_other _ _ _ hM]
    exact h M

theorem empty_keysAgree : Program.empty.KeysAgree := by
  intro M
  simp [Program.empty, mapFind]

theorem processLine_keysAgree (fuel : Nat) (line : String) (s : Session)
    (h : s.program.KeysAgree) : (processLine fuel line s).2.program.KeysAgree := by
  unfold processLine
  split
  · exact h
  · split
    · exact h
    · split
      · split
        · exact h
        · split
          · exact removeSourceLine_keysAgree _ _ h
          · split
            · exact h
            · exact h
            · exact store_keysAgree _ _ _ _ h
      · split
        · split
          · exact h
          · exact h
        · split
          · split
            · exact h
            · have := runLoop_program fuel s.program.getFirstLineNumber s h
              exact keysAgree_of_maps _ _ this.1 this.2 h
          · split
            · split
              · exact h
              · intro M
                simp [Program.clear, mapFind]
            · split
              · split
                · exact h
                · exact h
              · split
                · exact h
                · rename_i stmt _
                  have he := execute_program stmt s
                  cases hx : stmt.execute s with
                  | mk r s1 =>
                    rw [hx] at he
                    cases r with
                    | some e => exact keysAgree_of_maps _ _ he.1 he.2.1 h
                    | none => exact keysAgree_of_maps _ _ he.1 he.2.1 h

theorem processAll_keysAgree (calls : List (Nat × String)) (s : Session)
    (h : s.program.KeysAgree) : (processAll calls s).program.KeysAgree := by
  induction calls generalizing s with
  | nil => exact h
  | cons c rest ih =>
    obtain ⟨fuel, line⟩ := c
    exact ih _ (processLine_keysAgree fuel line s h)

theorem hasLine_congr (p q : Program) (h : q.sourceLines_ = p.sourceLines_) (N : Int) :
    q.hasLine N = p.hasLine N := by
  simp [Program.hasLine, h]

theorem getNextLineNumber_stored (p : Program) (L : Int) :
    p.getNextLineNumber L = -1 ∨ p.hasLine (p.getNextLineNumber L) = true := by
  unfold Program.getNextLineNumber
  cases hf : p.sourceLines_.find? (fun e => decide (L < e.1)) with
  | none => exact Or.inl rfl
  | some kv =>
    obtain ⟨k, v⟩ := kv
    right
    have := find_some_mem_keys _ _ _ _ hf
    simp only [Program.hasLine]
    cases hm : mapFind p.sourceLines_ k with
    | none => exact absurd hm this
    | some _ => rfl

theorem getFirstLineNumber_stored (p : Program) :
    p.getFirstLineNumber = -1 ∨ p.hasLine p.getFirstLineNumber = true := by
  unfold Program.getFirstLineNumber
  cases hs : p.sourceLines_ with
  | nil => exact Or.inl rfl
  | cons hd tl =>
    obtain ⟨k, v⟩ := hd
    right
    simp [Program.hasLine, mapFind, hs]

theorem runStep_next_stored (current next : Int) (s s1 : Session) (h : s.program.KeysAgree)
    (hr : runStep current s = (.ok next, s1)) :
    next = -1 ∨ s1.program.hasLine next = true := by
  have hf := fetchStatement_keysAgree s.program current h
  unfold runStep at hr
  cases hfs : fetchStatement s.program current with
  | mk r p1 =>
    rw [hfs] at hf hr
    simp only at hf
    subst hf
    cases r with
    | error e => simp at hr
    | crash => simp at hr
    | ok stmt =>
      simp only at hr
      have he := execute_program stmt
        ⟨s.program.clearNextLineOverride, s.state, s.input, s.output⟩
      cases hx : stmt.execute ⟨s.program.clearNextLineOverride, s.state, s.input, s.output⟩ with
      | mk r1 s2 =>
        rw [hx] at he hr
        cases r1 with
        | some e => simp at hr
        | none =>
          simp only [Prod.mk.injEq, Result.ok.injEq] at hr
          obtain ⟨hnext, hs2⟩ := hr
          subst hs2
          simp only at he
          obtain ⟨hsrc, _, hov⟩ := he
          have hsrc1 : s2.program.sourceLines_ = s.program.sourceLines_ := hsrc
          have hdef := getNextLineNumber_stored s.program.clearNextLineOverride current
          have hcl : s.program.clearNextLineOverride.sourceLines_ = s.program.sourceLines_ := rfl
          rw [hasLine_congr s.program _ hcl] at hdef
          rw [hasLine_congr s.program _ hsrc1]
          rw [← hnext]
          unfold Program.resolveNextLine
          split
          · rename_i hne
            rcases hov with h1 | h1 | h1
            · exact absurd h1 hne
            · exact Or.inl h1
            · right
              rw [hasLine_congr s.program _ hcl] at h1
              exact h1
          · exact hdef

theorem runRounds_stored (k : Nat) (first L : Int) (s0 s : Session)
    (h : s0.program.KeysAgree) (hfirst : first = -1 ∨ s0.program.hasLine first = true)
    (hr : runRounds k first s0 = some (L, s)) :
    s.program.KeysAgree ∧ (L = -1 ∨ s.program.hasLine L = true)
      ∧ s.program.sourceLines_ = s0.program.sourceLines_
      ∧ s.program.parsed_ = s0.program.parsed_ := by
  induction k generalizing first s0 with
  | zero =>
    simp only [runRounds, Option.some.injEq, Prod.mk.injEq] at hr
    rw [← hr.1, ← hr.2]
    exact ⟨h, hfirst, rfl, rfl⟩
  | succ k ih =>
    by_cases hc : first = -1
    · simp [runRounds, hc] at hr
    · simp only [runRounds, hc, if_false] at hr
      have hp := runStep_program first s0 h
      cases hs : runStep first s0 with
      | mk r s1 =>
        rw [hs] at hr hp
        cases r with
        | error e => simp at hr
        | crash => simp at hr
        | ok next =>
          simp only at hr hp
          have h1 := keysAgree_of_maps _ _ hp.1 hp.2 h
          have h2 := ih next s1 h1 (runStep_next_stored first next s0 s1 h hs) hr
          exact ⟨h2.1, h2.2.1, h2.2.2.1.trans hp.1, h2.2.2.2.trans hp.2⟩

/-! ## C17: the two maps have the same keys -/

/-- C17: after any sequence of calls of `processLine` that starts on the empty
store, whatever each call does and however it ends, a line number has a source
text exactly when it has a parsed statement; and in a RUN started then, every
round finds the parsed statement of its line, so the branch that parses the
source text again is not taken. -/
theorem keys_agree_after_calls (calls : List (Nat × String)) (s0 : Session)
    (hempty : s0.program = Program.empty) :
    (∀ N, (processAll calls s0).program.hasLine N = true
        ↔ ∃ stmt, (processAll calls s0).program.getParsedStatement N = some stmt)
    ∧ (∀ k L s,
        runRounds k (processAll calls s0).program.getFirstLineNumber (processAll calls s0)
            = some (L, s) →
        L ≠ -1 →
        ∃ stmt, s.program.getParsedStatement L = some stmt
          ∧ fetchStatement s.program L = (.ok stmt, s.program)) := by
  have h0 : s0.program.KeysAgree := by
    rw [hempty]
    exact empty_keysAgree
  have h := processAll_keysAgree calls s0 h0
  constructor
  · intro N
    have hN := h N
    unfold Program.hasLine Program.getParsedStatement
    rw [hN]
    cases mapFind (processAll calls s0).program.parsed_ N <;> simp
  · intro k L s hr hL
    have hinv := runRounds_stored k _ L _ s h (getFirstLineNumber_stored _) hr
    obtain ⟨hag, hst, _, _⟩ := hinv
    have hst1 : s.program.hasLine L = true := hst.resolve_left hL
    have hL1 := hag L
    unfold Program.hasLine at hst1
    rw [hL1] at hst1
    cases hm : mapFind s.program.parsed_ L with
    | none => simp [hm] at hst1
    | some stmt =>
      refine ⟨stmt, hm, ?_⟩
      simp [fetchStatement, Program.getParsedStatement, hm]

/-- Witness for C17: a store, a refused store, a deletion, a RUN, a CLEAR and
another store; line 5, stored last, has both a source text and a parsed
statement, and line 20, whose store was refused, has neither. -/
theorem keys_agree_after_calls_witness :
    ((processAll [(0, "10 PRINT 1"), (0, "20 LET"), (0, "30 END"), (0, "10"), (5, "RUN"),
          (0, "CLEAR"), (0, "5 REM"), (0, "PRINT 2")] (Session.initial [])).program.hasLine 5
        = true
      ↔ ∃ stmt, (processAll [(0, "10 PRINT 1"), (0, "20 LET"), (0, "30 END"), (0, "10"),
          (5, "RUN"), (0, "CLEAR"), (0, "5 REM"), (0, "PRINT 2")]
            (Session.initial [])).program.getParsedStatement 5 = some stmt)
    ∧ ((processAll [(0, "10 PRINT 1"), (0, "20 LET"), (0, "30 END"), (0, "10"), (5, "RUN"),
          (0, "CLEAR"), (0, "5 REM"), (0, "PRINT 2")] (Session.initial [])).program.hasLine 20
        = true
      ↔ ∃ stmt, (processAll [(0, "10 PRINT 1"), (0, "20 LET"), (0, "30 END"), (0, "10"),
          (5, "RUN"), (0, "CLEAR"), (0, "5 REM"), (0, "PRINT 2")]
            (Session.initial [])).program.getParsedStatement 20 = some stmt) :=
  ⟨(keys_agree_after_calls [(0, "10 PRINT 1"), (0, "20 LET"), (0, "30 END"), (0, "10"),
      (5, "RUN"), (0, "CLEAR"), (0, "5 REM"), (0, "PRINT 2")] (Session.initial []) rfl).1 5,
    (keys_agree_after_calls [(0, "10 PRINT 1"), (0, "20 LET"), (0, "30 END"), (0, "10"),
      (5, "RUN"), (0, "CLEAR"), (0, "5 REM"), (0, "PRINT 2")] (Session.initial []) rfl).1 20⟩

/-- The store of the witness of C17 computed: only line 5 is left, in both
maps. -/
theorem keys_agree_after_calls_example :
    (processAll [(0, "10 PRINT 1"), (0, "20 LET"), (0, "30 END"), (0, "10"), (5, "RUN"),
        (0, "CLEAR"), (0, "5 REM"), (0, "PRINT 2")] (Session.initial [])).program
      = ⟨[(5, "5 REM")], [(5, Statement.Rem)], INT_MIN⟩ := rfl

/-! ## C20: RUN does not edit the store -/

/-- C20: on a store reached by any sequence of calls of `processLine` from the
empty store, with any evaluation state, pending input and output, RUN,
whatever the bound on its rounds and however it ends, leaves the source map
and the map of parsed statements as they were; so the stored line numbers, the
source text and the parsed statement of every line are unchanged. -/
theorem run_keeps_store (calls : List (Nat × String)) (s0 : Session)
    (hempty : s0.program = Program.empty) (state : EvalState) (input : List String)
    (output : String) (fuel : Nat) :
    (processLine fuel "RUN" ⟨(processAll calls s0).program, state, input, output⟩).2.program.sourceLines_
        = (processAll calls s0).program.sourceLines_
    ∧ (processLine fuel "RUN" ⟨(processAll calls s0).program, state, input, output⟩).2.program.parsed_
        = (processAll calls s0).program.parsed_
    ∧ ∀ N,
        (processLine fuel "RUN" ⟨(processAll calls s0).program, state, input, output⟩).2.program.hasLine N
            = (processAll calls s0).program.hasLine N
        ∧ (processLine fuel "RUN" ⟨(processAll calls s0).program, state, input, output⟩).2.program.getSourceLine N
            = (processAll calls s0).program.getSourceLine N
        ∧ (processLine fuel "RUN" ⟨(processAll calls s0).program, state, input, output⟩).2.program.getParsedStatement N
            = (processAll calls s0).program.getParsedStatement N := by
  have h0 : s0.program.KeysAgree := by
    rw [hempty]
    exact empty_keysAgree
  have h := processAll_keysAgree calls s0 h0
  have hrun := runLoop_program fuel (processAll calls s0).program.getFirstLineNumber
    ⟨(processAll calls s0).program, state, input, output⟩ h
  rw [processLine_RUN]
  refine ⟨hrun.1, hrun.2, fun N => ?_⟩
  simp only [Program.hasLine, Program.getSourceLine, Program.getParsedStatement]
  simp only at hrun
  rw [hrun.1, hrun.2]
  exact ⟨rfl, rfl, rfl⟩

/-- Witness for C20: a program with a jump and an error is run; the store
after the run is the store before it. -/
theorem run_keeps_store_witness :
    (processLine 9 "RUN"
        ⟨(processAll [(0, "10 LET X = 1"), (0, "20 IF X = 1 THEN 40"), (0, "30 END"),
            (0, "40 GOTO 50")] (Session.initial [])).program, [], [], ""⟩).2.program.parsed_
      = (processAll [(0, "10 LET X = 1"), (0, "20 IF X = 1 THEN 40"), (0, "30 END"),
            (0, "40 GOTO 50")] (Session.initial [])).program.parsed_ :=
  (run_keeps_store [(0, "10 LET X = 1"), (0, "20 IF X = 1 THEN 40"), (0, "30 END"),
    (0, "40 GOTO 50")] (Session.initial []) rfl [] [] "" 9).2.1

/-! ## Facts about walking the source map in order -/

theorem getNextLineNumber_split (p : Program) (pre rest : List (Int × String)) (k : Int)
    (v : String) (hs : p.sourceLines_ = pre ++ (k, v) :: rest) (hsorted : p.Ordered) :
    p.getNextLineNumber k = firstKey rest := by
  unfold Program.Ordered at hsorted
  rw [hs, List.pairwise_append] at hsorted
  obtain ⟨_, hr, hcross⟩ := hsorted
  rw [List.pairwise_cons] at hr
  have hpre : pre.find? (fun e => decide (k < e.1)) = none := by
    rw [List.find?_eq_none]
    intro x hx
    have := hcross x hx (k, v) (List.mem_cons_self _ _)
    simp only at this
    simp only [decide_eq_true_eq]
    omega
  unfold Program.getNextLineNumber
  rw [hs, List.find?_append, hpre]
  cases rest with
  | nil => simp [List.find?, firstKey]
  | cons hd tl =>
    obtain ⟨k2, v2⟩ := hd
    have h2 := hr.1 (k2, v2) (List.mem_cons_self _ _)
    simp only at h2
    have hd2 : decide (k < k2) = true := decide_eq_true h2
    simp [List.find?, hd2, firstKey]

theorem mapFind_of_mem {α : Type} (m : List (Int × α)) (k : Int) (v : α)
    (hsorted : m.Pairwise (fun a b => a.1 < b.1)) (hmem : (k, v) ∈ m) :
    mapFind m k = some v := by
  induction m with
  | nil => simp at hmem
  | cons hd tl ih =>
    obtain ⟨k1, v1⟩ := hd
    rw [List.pairwise_cons] at hsorted
    rcases List.mem_cons.mp hmem with h | h
    · simp only [Prod.mk.injEq] at h
      simp [mapFind, h.1, h.2]
    · have hlt := hsorted.1 (k, v) h
      simp only at hlt
      have hne : ¬ k1 = k := by omega
      simp only [mapFind, hne, if_false]
      exact ih hsorted.2 h

theorem listedNumbers_split (p : Program) (hsorted : p.Ordered)
    (hkeys : ∀ N, p.hasLine N = true → 0 ≤ N) (suf pre : List (Int × String)) (fuel : Nat)
    (hs : p.sourceLines_ = pre ++ suf) (hfuel : suf.length ≤ fuel) :
    listedNumbers fuel p (firstKey suf) = suf.map (fun e => e.1) := by
  induction suf generalizing pre fuel with
  | nil => cases fuel <;> simp [listedNumbers, firstKey]
  | cons hd tl ih =>
    obtain ⟨k, v⟩ := hd
    cases fuel with
    | zero => simp at hfuel
    | succ f =>
      have hmem : p.hasLine k = true :=
        (hasLine_iff_mem p k).mpr ⟨v, by rw [hs]; simp⟩
      have hk : k ≠ -1 := by
        have := hkeys k hmem
        omega
      have hnext := getNextLineNumber_split p pre tl k v hs hsorted
      have hfk : firstKey ((k, v) :: tl) = k := rfl
      rw [hfk]
      simp only [listedNumbers, hk, if_false, List.map_cons, hnext]
      have hs1 : p.sourceLines_ = (pre ++ [(k, v)]) ++ tl := by rw [hs]; simp
      rw [ih (pre ++ [(k, v)]) f hs1 (by simpa using hfuel)]

theorem listing_eq (p : Program) (hsorted : p.Ordered)
    (hkeys : ∀ N, p.hasLine N = true → 0 ≤ N) :
    listedLines p = p.sourceLines_.map (fun e => e.1)
    ∧ listing p = concatLines (p.sourceLines_.map (fun e => e.2)) := by
  have h1 : listedLines p = p.sourceLines_.map (fun e => e.1) :=
    listedNumbers_split p hsorted hkeys p.sourceLines_ [] _ (by simp) (Nat.le_refl _)
  refine ⟨h1, ?_⟩
  unfold listing
  rw [h1, List.map_map]
  congr 1
  apply List.map_congr_left
  intro e he
  obtain ⟨k, v⟩ := e
  simp only [Function.comp, Program.getSourceLine, mapFind_of_mem _ k v hsorted he]

theorem processLine_LIST (fuel : Nat) (s : Session) :
    processLine fuel "LIST" s
      = (Outcome.returned, ⟨s.program, s.state, s.input, s.output ++ listing s.program⟩) := by
  have hl : nextToken (setInput "LIST") = .ok ("LIST", []) := rfl
  have ht : getTokenType "LIST" ≠ TokenType.NUMBER := by decide
  simp [processLine, hl, ht, hasMoreTokens, listLoop_eq, listedLines, listing]

/-! ## Facts about the lines that edit the store -/

theorem numberValue_nonneg (tok : String) (N : Int)
    (hnum : getTokenType tok = TokenType.NUMBER) (h : numberValue tok = .ok N) : 0 ≤ N := by
  unfold numberValue at h
  cases hs : stringToInteger tok with
  | none => simp [hs] at h
  | some v =>
    simp only [hs, Except.ok.injEq] at h
    subst h
    unfold getTokenType at hnum
    unfold stringToInteger at hs
    cases hd : tok.data with
    | nil => simp [hd] at hnum
    | cons c cs =>
      rw [hd] at hnum hs
      simp only at hnum
      have hdig : c.isDigit = true := by
        cases hc : c.isDigit with
        | true => rfl
        | false =>
          rw [hc] at hnum
          simp only [Bool.false_eq_true, if_false] at hnum
          split at hnum <;> exact absurd hnum (by decide)
      have hminus : c ≠ '-' := by
        intro hc
        subst hc
        simp [Char.isDigit] at hdig
      split at hs
      · simp at *
      · rename_i c1 cs1 heq
        simp only [List.cons.injEq] at heq
        exact absurd heq.1 hminus
      · rename_i c1 cs1 _ heq
        cases hdn : digitsToNat (c1 :: cs1) 0 with
        | none => simp [hdn] at hs
        | some n =>
          simp [hdn] at hs
          omega

theorem editOf_store (line : String) (M : Int) (h : editOf line = some (M, true)) :
    ∃ first scanner stmt, nextToken (setInput line) = .ok (first, scanner)
      ∧ getTokenType first = TokenType.NUMBER ∧ numberValue first = .ok M
      ∧ hasMoreTokens scanner = true ∧ parseStatementForProgram scanner = .ok stmt := by
  unfold editOf at h
  split at h
  · simp at h
  · rename_i first scanner hnt
    split at h
    · rename_i hnum
      split at h
      · simp at h
      · rename_i N hval
        split at h
        · rename_i hmore
          split at h
          · rename_i stmt hparse
            simp only [Option.some.injEq, Prod.mk.injEq, and_true] at h
            subst h
            exact ⟨first, scanner, stmt, hnt, hnum, hval, hmore, hparse⟩
          · simp at h
          · simp at h
        · simp at h
    · simp at h

theorem editOf_delete (line : String) (M : Int) (h : editOf line = some (M, false)) :
    ∃ first, nextToken (setInput line) = .ok (first, [])
      ∧ getTokenType first = TokenType.NUMBER ∧ numberValue first = .ok M := by
  unfold editOf at h
  split at h
  · simp at h
  · rename_i first scanner hnt
    split at h
    · rename_i hnum
      split at h
      · simp at h
      · rename_i N hval
        split at h
        · split at h <;> simp at h
        · rename_i hmore
          simp only [Option.some.injEq, Prod.mk.injEq, and_true] at h
          subst h
          cases scanner with
          | nil => exact ⟨first, hnt, hnum, hval⟩
          | cons t ts => simp [hasMoreTokens] at hmore
    · simp at h

/-- What a call of `processLine` can do to the program store: leave both maps
as they are, remove a line, store a line, or clear the store. -/
theorem processLine_program_cases (fuel : Nat) (line : String) (s : Session)
    (hag : s.program.KeysAgree) :
    ((processLine fuel line s).2.program.sourceLines_ = s.program.sourceLines_
      ∧ (processLine fuel line s).2.program.parsed_ = s.program.parsed_)
    ∨ (∃ N, 0 ≤ N ∧ (processLine fuel line s).2.program = s.program.removeSourceLine N)
    ∨ (∃ N stmt, 0 ≤ N ∧ (processLine fuel line s).2.program
          = (s.program.addSourceLine N line).setParsedStatement N stmt)
    ∨ (processLine fuel line s).2.program = s.program.clear := by
  unfold processLine
  split
  · exact Or.inl ⟨rfl, rfl⟩
  · split
    · exact Or.inl ⟨rfl, rfl⟩
    · split
      · rename_i hnum
        split
        · exact Or.inl ⟨rfl, rfl⟩
        · rename_i N hval
          split
          · exact Or.inr (Or.inl ⟨N, numberValue_nonneg _ _ hnum hval, rfl⟩)
          · split
            · exact Or.inl ⟨rfl, rfl⟩
            · exact Or.inl ⟨rfl, rfl⟩
            · rename_i stmt _
              exact Or.inr (Or.inr (Or.inl ⟨N, stmt, numberValue_nonneg _ _ hnum hval, rfl⟩))
      · split
        · split
          · exact Or.inl ⟨rfl, rfl⟩
          · exact Or.inl ⟨rfl, rfl⟩
        · split
          · split
            · exact Or.inl ⟨rfl, rfl⟩
            · exact Or.inl (runLoop_program fuel s.program.getFirstLineNumber s hag)
          · split
            · split
              · exact Or.inl ⟨rfl, rfl⟩
              · exact Or.inr (Or.inr (Or.inr rfl))
            · split
              · split
                · exact Or.inl ⟨rfl, rfl⟩
                · exact Or.inl ⟨rfl, rfl⟩
              · split
                · exact Or.inl ⟨rfl, rfl⟩
                · rename_i stmt _
                  have he := execute_program stmt s
                  cases hx : stmt.execute s with
                  | mk r s1 =>
                    rw [hx] at he
                    cases r with
                    | some e => exact Or.inl ⟨he.1, he.2.1⟩
                    | none => exact Or.inl ⟨he.1, he.2.1⟩

theorem store_hasLine (p : Program) (N M : Int) (line : String) (stmt : Statement)
    (h : ((p.addSourceLine N line).setParsedStatement N stmt).hasLine M = true) :
    M = N ∨ p.hasLine M = true := by
  by_cases hM : M = N
  · exact Or.inl hM
  · right
    unfold Program.hasLine at h ⊢
    rw [stored_source_other p N M line stmt hM] at h
    exact h

theorem remove_hasLine (p : Program) (N M : Int)
    (h : (p.removeSourceLine N).hasLine M = true) : p.hasLine M = true := by
  by_cases hM : M = N
  · subst hM
    simp [Program.hasLine, Program.removeSourceLine, mapFind_mapErase_self] at h
  · unfold Program.hasLine at h ⊢
    simp only [Program.removeSourceLine, mapFind_mapErase_other _ _ _ hM] at h
    exact h

/-- Every call of `processLine` keeps the source map ordered and free of
negative line numbers. -/
theorem processLine_ordered (fuel : Nat) (line : String) (s : Session)
    (hag : s.program.KeysAgree) (hsorted : s.program.Ordered)
    (hkeys : ∀ N, s.program.hasLine N = true → 0 ≤ N) :
    (processLine fuel line s).2.program.Ordered
    ∧ ∀ N, (processLine fuel line s).2.program.hasLine N = true → 0 ≤ N := by
  rcases processLine_program_cases fuel line s hag with h | ⟨N, hN, h⟩ | ⟨N, stmt, hN, h⟩ | h
  · constructor
    · unfold Program.Ordered
      rw [h.1]
      exact hsorted
    · intro M hM
      rw [hasLine_congr s.program _ h.1] at hM
      exact hkeys M hM
  · rw [h]
    exact ⟨removeSourceLine_ordered _ _ hsorted, fun M hM => hkeys M (remove_hasLine _ _ _ hM)⟩
  · rw [h]
    refine ⟨setParsedStatement_ordered _ _ _ (addSourceLine_ordered _ _ _ hsorted), ?_⟩
    intro M hM
    rcases store_hasLine _ _ _ _ _ hM with h1 | h1
    · rw [h1]
      exact hN
    · exact hkeys M h1
  · rw [h]
    refine ⟨clear_ordered _, ?_⟩
    intro M hM
    simp [Program.clear, Program.hasLine, mapFind] at hM

theorem processAll_invariant (calls : List (Nat × String)) (s : Session)
    (hag : s.program.KeysAgree) (hsorted : s.program.Ordered)
    (hkeys : ∀ N, s.program.hasLine N = true → 0 ≤ N) :
    (processAll calls s).program.KeysAgree ∧ (processAll calls s).program.Ordered
    ∧ ∀ N, (processAll calls s).program.hasLine N = true → 0 ≤ N := by
  induction calls generalizing s with
  | nil => exact ⟨hag, hsorted, hkeys⟩
  | cons c rest ih =>
    obtain ⟨fuel, line⟩ := c
    have h1 := processLine_ordered fuel line s hag hsorted hkeys
    exact ih _ (processLine_keysAgree fuel line s hag) h1.1 h1.2

theorem empty_invariant (s0 : Session) (hempty : s0.program = Program.empty) :
    s0.program.KeysAgree ∧ s0.program.Ordered
    ∧ ∀ N, s0.program.hasLine N = true → 0 ≤ N := by
  rw [hempty]
  refine ⟨empty_keysAgree, empty_ordered, ?_⟩
  intro N hN
  simp [Program.empty, Program.hasLine, mapFind] at hN

/-! ## C12: LIST after stores and deletions -/

theorem edits_run (fuel : Nat) (lines : List String) (s : Session)
    (hsorted : s.program.Ordered) (hkeys : ∀ N, s.program.hasLine N = true → 0 ≤ N)
    (hedit : ∀ line ∈ lines, (editOf line).isSome = true) :
    ∃ s1 : Session, processLines fuel lines s = (Outcome.returned, s1)
      ∧ s1.program.Ordered ∧ (∀ N, s1.program.hasLine N = true → 0 ≤ N)
      ∧ (∀ N, mapFind s1.program.sourceLines_ N
            = latestText lines N (mapFind s.program.sourceLines_ N))
      ∧ s1.state = s.state ∧ s1.input = s.input ∧ s1.output = s.output := by
  induction lines generalizing s with
  | nil => exact ⟨s, rfl, hsorted, hkeys, fun N => rfl, rfl, rfl, rfl⟩
  | cons line rest ih =>
    have hl := hedit line (List.mem_cons_self _ _)
    have hrest : ∀ l ∈ rest, (editOf l).isSome = true :=
      fun l hl1 => hedit l (List.mem_cons_of_mem _ hl1)
    cases he : editOf line with
    | none => simp [he] at hl
    | some mb =>
      obtain ⟨M, b⟩ := mb
      cases b with
      | true =>
        obtain ⟨first, scanner, stmt, h1, h2, h3, h4, h5⟩ := editOf_store line M he
        have hstep := processLine_store fuel line s first scanner M stmt h1 h2 h3 h4 h5
        have hM := numberValue_nonneg first M h2 h3
        have hord1 : ((s.program.addSourceLine M line).setParsedStatement M stmt).Ordered :=
          setParsedStatement_ordered _ _ _ (addSourceLine_ordered _ _ _ hsorted)
        have hkeys1 : ∀ N, ((s.program.addSourceLine M line).setParsedStatement M stmt).hasLine N
            = true → 0 ≤ N := by
          intro N hN
          rcases store_hasLine _ _ _ _ _ hN with h | h
          · rw [h]
            exact hM
          · exact hkeys N h
        obtain ⟨s1, hr, ho, hk, hf, hst, hin, hout⟩ :=
          ih ⟨(s.program.addSourceLine M line).setParsedStatement M stmt, s.state, s.input,
            s.output⟩ hord1 hkeys1 hrest
        refine ⟨s1, ?_, ho, hk, ?_, hst, hin, hout⟩
        · simp only [processLines, hstep]
          exact hr
        · intro N
          rw [hf N]
          simp only [latestText, he]
          by_cases hN : M = N
          · subst hN
            simp [stored_source]
          · have hN1 : N ≠ M := fun e => hN e.symm
            simp [hN, stored_source_other _ _ _ _ _ hN1]
      | false =>
        obtain ⟨first, h1, h2, h3⟩ := editOf_delete line M he
        have hstep := processLine_delete fuel line s first M h1 h2 h3
        have hord1 : (s.program.removeSourceLine M).Ordered :=
          removeSourceLine_ordered _ _ hsorted
        have hkeys1 : ∀ N, (s.program.removeSourceLine M).hasLine N = true → 0 ≤ N :=
          fun N hN => hkeys N (remove_hasLine _ _ _ hN)
        obtain ⟨s1, hr, ho, hk, hf, hst, hin, hout⟩ :=
          ih ⟨s.program.removeSourceLine M, s.state, s.input, s.output⟩ hord1 hkeys1 hrest
        refine ⟨s1, ?_, ho, hk, ?_, hst, hin, hout⟩
        · simp only [processLines, hstep]
          exact hr
        · intro N
          rw [hf N]
          simp only [latestText, he]
          by_cases hN : M = N
          · subst hN
            simp [Program.removeSourceLine, mapFind_mapErase_self]
          · have hN1 : N ≠ M := fun e => hN e.symm
            simp [hN, Program.removeSourceLine, mapFind_mapErase_other _ _ _ hN1]

/-- C12: let every input line be a store that parses or a bare line number,
processed in order from the empty store.  Then LIST writes the texts held by
the source map, one per entry and in the order of the map, each followed by a
line terminator; the keys of the map ascend strictly, so there is one line per
stored number; and the text held for a number is the input line of the most
recent store of that number, unless a deletion of it came later, in which case
the number is not stored. -/
theorem list_after_edits (fuel : Nat) (lines : List String) (input : List String)
    (hedit : ∀ line ∈ lines, (editOf line).isSome = true) :
    ∃ s : Session, processLines fuel lines (Session.initial input) = (Outcome.returned, s)
      ∧ (∀ fuel1, processLine fuel1 "LIST" s
          = (Outcome.returned, ⟨s.program, s.state, s.input,
              s.output ++ concatLines (s.program.sourceLines_.map (fun e => e.2))⟩))
      ∧ listedLines s.program = s.program.sourceLines_.map (fun e => e.1)
      ∧ s.program.sourceLines_.Pairwise (fun a b => a.1 < b.1)
      ∧ (∀ N, mapFind s.program.sourceLines_ N = latestText lines N none)
      ∧ (∀ N text, (N, text) ∈ s.program.sourceLines_ ↔ latestText lines N none = some text) := by
  have h0 := empty_invariant (Session.initial input) rfl
  obtain ⟨s, hr, ho, hk, hf, _, _, _⟩ :=
    edits_run fuel lines (Session.initial input) h0.2.1 h0.2.2 hedit
  have hl := listing_eq s.program ho hk
  have hf0 : ∀ N, mapFind s.program.sourceLines_ N = latestText lines N none := by
    intro N
    rw [hf N]
    rfl
  refine ⟨s, hr, ?_, hl.1, ho, hf0, ?_⟩
  · intro fuel1
    rw [processLine_LIST, hl.2]
  · intro N text
    rw [← hf0 N]
    constructor
    · intro hmem
      exact mapFind_of_mem _ _ _ ho hmem
    · intro hfind
      generalize s.program.sourceLines_ = m at hfind
      induction m with
      | nil => simp [mapFind] at hfind
      | cons hd tl ih =>
        obtain ⟨k, v⟩ := hd
        by_cases hk1 : k = N
        · simp only [mapFind, hk1, if_true, Option.some.injEq] at hfind
          rw [hk1, hfind]
          exact List.mem_cons_self _ _
        · simp only [mapFind, hk1, if_false] at hfind
          exact List.mem_cons_of_mem _ (ih hfind)

/-- Witness for C12: lines 30, 10, 20 are stored in that order, line 10 is
stored again and line 30 is deleted; LIST writes the second text of line 10 and
then line 20. -/
theorem list_after_edits_witness :
    ∃ s : Session,
      processLines 0 ["30 END", "10 PRINT 1", "20 REM x", "10 PRINT 2", "30"]
          (Session.initial []) = (Outcome.returned, s)
      ∧ (∀ fuel1, processLine fuel1 "LIST" s
          = (Outcome.returned, ⟨s.program, s.state, s.input,
              s.output ++ concatLines (s.program.sourceLines_.map (fun e => e.2))⟩))
      ∧ s.program.sourceLines_ = [(10, "10 PRINT 2"), (20, "20 REM x")] := by
  obtain ⟨s, h1, h2, _, _, _, _⟩ :=
    list_after_edits 0 ["30 END", "10 PRINT 1", "20 REM x", "10 PRINT 2", "30"] []
      (by decide)
  refine ⟨s, h1, h2, ?_⟩
  have h3 : processLines 0 ["30 END", "10 PRINT 1", "20 REM x", "10 PRINT 2", "30"]
      (Session.initial [])
      = (Outcome.returned, ⟨⟨[(10, "10 PRINT 2"), (20, "20 REM x")],
          [(10, Statement.Print (Expression.Constant 2)), (20, Statement.Rem)], INT_MIN⟩,
          [], [], ""⟩) := rfl
  rw [h3] at h1
  simp only [Prod.mk.injEq, true_and] at h1
  rw [← h1]

/-! ## C19: programs without jumps -/

theorem execute_sequential (stmt : Statement) (s : Session)
    (h : stmt.isSequential = true) : (stmt.execute s).2.program = s.program := by
  cases stmt with
  | Rem => rfl
  | Let exp_ =>
    simp only [Statement.execute]
    split <;> rfl
  | Print exp_ =>
    simp only [Statement.execute]
    split <;> rfl
  | Input var_ => simp [Statement.isSequential] at h
  | End => simp [Statement.isSequential] at h
  | Goto target_ => simp [Statement.isSequential] at h
  | If lhs_ rhs_ op_ target_ => simp [Statement.isSequential] at h

theorem runTrace_stop (fuel : Nat) (s : Session) : runTrace fuel (-1) s = [] := by
  cases fuel <;> simp [runTrace]

theorem sequential_run (p : Program) (hsorted : p.Ordered)
    (hkeys : ∀ N, p.hasLine N = true → 0 ≤ N) (hag : p.KeysAgree)
    (hseq : ∀ N stmt, p.getParsedStatement N = some stmt → stmt.isSequential = true)
    (suf pre : List (Int × String)) (extra : Nat) (s : Session)
    (hs : p.sourceLines_ = pre ++ suf)
    (hsrc : s.program.sourceLines_ = p.sourceLines_) (hprs : s.program.parsed_ = p.parsed_) :
    ((∃ e, (runLoop (suf.length + extra) (firstKey suf) s).1 = Outcome.thrown e)
      ∧ runTrace (suf.length + extra) (firstKey suf) s <+: suf.map (fun e => e.1))
    ∨ ((runLoop (suf.length + extra) (firstKey suf) s).1 = Outcome.returned
      ∧ runTrace (suf.length + extra) (firstKey suf) s = suf.map (fun e => e.1)) := by
  induction suf generalizing pre s with
  | nil =>
    right
    have hfk : firstKey [] = -1 := rfl
    rw [hfk, runLoop_stop, runTrace_stop]
    exact ⟨rfl, rfl⟩
  | cons hd tl ih =>
    obtain ⟨k, v⟩ := hd
    have hfk : firstKey ((k, v) :: tl) = k := rfl
    have hlen : ((k, v) :: tl).length + extra = (tl.length + extra) + 1 := by
      simp only [List.length_cons]
      omega
    rw [hfk, hlen]
    have hmem : p.hasLine k = true := (hasLine_iff_mem p k).mpr ⟨v, by rw [hs]; simp⟩
    have hk : k ≠ -1 := by
      have := hkeys k hmem
      omega
    have hpk : (mapFind p.parsed_ k).isSome = true := by
      rw [← hag k]
      exact hmem
    cases hm : mapFind p.parsed_ k with
    | none => simp [hm] at hpk
    | some stmt =>
      have hsq := hseq k stmt hm
      have hfetch : fetchStatement s.program k = (.ok stmt, s.program) := by
        simp [fetchStatement, Program.getParsedStatement, hprs, hm]
      have hprog := execute_sequential stmt
        ⟨s.program.clearNextLineOverride, s.state, s.input, s.output⟩ hsq
      have hnext : s.program.clearNextLineOverride.getNextLineNumber k = firstKey tl := by
        have h1 : s.program.clearNextLineOverride.getNextLineNumber k = p.getNextLineNumber k := by
          simp [Program.getNextLineNumber, Program.clearNextLineOverride, hsrc]
        rw [h1]
        exact getNextLineNumber_split p pre tl k v hs hsorted
      cases hx : stmt.execute ⟨s.program.clearNextLineOverride, s.state, s.input, s.output⟩ with
      | mk r s1 =>
        rw [hx] at hprog
        simp only at hprog
        cases r with
        | some e =>
          left
          have hstep : runStep k s = (.error e, s1) := by
            unfold runStep
            rw [hfetch]
            simp only
            rw [hx]
          simp only [runLoop, runTrace, hk, if_false, hstep]
          exact ⟨⟨e, rfl⟩, by simp⟩
        | none =>
          have hstep : runStep k s = (.ok (firstKey tl), s1) := by
            unfold runStep
            rw [hfetch]
            simp only
            rw [hx]
            simp only
            rw [hnext, hprog]
            simp [Program.resolveNextLine, Program.clearNextLineOverride]
          simp only [runLoop, runTrace, hk, if_false, hstep, List.map_cons]
          have hs1 : p.sourceLines_ = (pre ++ [(k, v)]) ++ tl := by rw [hs]; simp
          have hsrc1 : s1.program.sourceLines_ = p.sourceLines_ := by rw [hprog]; exact hsrc
          have hprs1 : s1.program.parsed_ = p.parsed_ := by rw [hprog]; exact hprs
          rcases ih (pre ++ [(k, v)]) s1 hs1 hsrc1 hprs1 with ⟨he, ht⟩ | ⟨hr, ht⟩
          · left
            refine ⟨he, ?_⟩
            obtain ⟨t, ht1⟩ := ht
            exact ⟨t, by rw [List.cons_append, ht1]⟩
          · right
            exact ⟨hr, by rw [ht]⟩

theorem sequential_of_entries (p : Program)
    (h : ∀ e ∈ p.parsed_, e.2.isSequential = true) :
    ∀ N stmt, p.getParsedStatement N = some stmt → stmt.isSequential = true := by
  intro N stmt hN
  unfold Program.getParsedStatement at hN
  generalize p.parsed_ = m at h hN
  induction m with
  | nil => simp [mapFind] at hN
  | cons hd tl ih =>
    obtain ⟨k, st⟩ := hd
    by_cases hk : k = N
    · simp only [mapFind, hk, if_true, Option.some.injEq] at hN
      rw [← hN]
      exact h (k, st) (List.mem_cons_self _ _)
    · simp only [mapFind, hk, if_false] at hN
      exact ih (fun e he => h e (List.mem_cons_of_mem _ he)) hN

/-- C19: let the session `s` be reached from the empty store by calls of
`processLine`, and let every parsed statement of its store be a REM, a LET or
a PRINT.  Then RUN, allowed as many rounds as there are stored lines or more,
never runs out of rounds: either a statement throws, and the rounds run are
the first stored lines up to the failing one, or it returns, and the rounds
run are exactly the stored line numbers, each once, in the strictly ascending
order of the source map.  On a store without lines RUN returns at once and runs
no round. -/
theorem run_sequential (calls : List (Nat × String)) (s0 s : Session) (extra : Nat)
    (hempty : s0.program = Program.empty)
    (hs : s = processAll calls s0)
    (hseq : ∀ N stmt, s.program.getParsedStatement N = some stmt →
      stmt.isSequential = true) :
    (((∃ e, (processLine (s.program.sourceLines_.length + extra) "RUN" s).1 = Outcome.thrown e)
        ∧ runTrace (s.program.sourceLines_.length + extra) s.program.getFirstLineNumber s
            <+: s.program.sourceLines_.map (fun e => e.1))
      ∨ ((processLine (s.program.sourceLines_.length + extra) "RUN" s).1 = Outcome.returned
        ∧ runTrace (s.program.sourceLines_.length + extra) s.program.getFirstLineNumber s
            = s.program.sourceLines_.map (fun e => e.1)))
    ∧ (s.program.sourceLines_.map (fun e => e.1)).Pairwise (fun a b => a < b)
    ∧ (∀ N, N ∈ s.program.sourceLines_.map (fun e => e.1) ↔ s.program.hasLine N = true)
    ∧ (s.program.sourceLines_ = [] →
        ∀ fuel, processLine fuel "RUN" s = (Outcome.returned, s)
          ∧ runTrace fuel s.program.getFirstLineNumber s = []) := by
  have h0 := empty_invariant s0 hempty
  have hinv := processAll_invariant calls s0 h0.1 h0.2.1 h0.2.2
  rw [← hs] at hinv
  obtain ⟨hag, hsorted, hkeys⟩ := hinv
  have hfirst : s.program.getFirstLineNumber = firstKey s.program.sourceLines_ := rfl
  refine ⟨?_, ?_, ?_, ?_⟩
  · rw [processLine_RUN, hfirst]
    exact sequential_run s.program hsorted hkeys hag hseq s.program.sourceLines_ [] extra s
      (by simp) rfl rfl
  · rw [List.pairwise_map]
    exact hsorted
  · intro N
    rw [hasLine_iff_mem]
    simp only [List.mem_map]
    constructor
    · rintro ⟨e, he, rfl⟩
      exact ⟨e.2, he⟩
    · rintro ⟨v, hv⟩
      exact ⟨(N, v), hv, rfl⟩
  · intro hnil fuel
    have hf : s.program.getFirstLineNumber = -1 := by
      simp [Program.getFirstLineNumber, hnil]
    rw [processLine_RUN, hf, runLoop_stop, runTrace_stop]
    exact ⟨rfl, rfl⟩

/-- Witness for C19: the lines 20, 10 and 30 are stored in that order; RUN
goes through 10, 20, 30 or stops at a statement that throws. -/
theorem run_sequential_witness :
    ((∃ e, (processLine 3 "RUN"
          (processAll [(0, "20 PRINT X"), (0, "10 LET X = 1"), (0, "30 REM")]
            (Session.initial []))).1 = Outcome.thrown e)
        ∧ runTrace 3 10 (processAll [(0, "20 PRINT X"), (0, "10 LET X = 1"), (0, "30 REM")]
            (Session.initial [])) <+: [10, 20, 30])
      ∨ ((processLine 3 "RUN"
          (processAll [(0, "20 PRINT X"), (0, "10 LET X = 1"), (0, "30 REM")]
            (Session.initial []))).1 = Outcome.returned
        ∧ runTrace 3 10 (processAll [(0, "20 PRINT X"), (0, "10 LET X = 1"), (0, "30 REM")]
            (Session.initial [])) = [10, 20, 30]) :=
  (run_sequential [(0, "20 PRINT X"), (0, "10 LET X = 1"), (0, "30 REM")] (Session.initial [])
    (processAll [(0, "20 PRINT X"), (0, "10 LET X = 1"), (0, "30 REM")] (Session.initial []))
    0 rfl rfl (sequential_of_entries _ (by decide))).1

/-- The run of the witness of C19 computed: it returns, the rounds are 10, 20,
30 and the output is the line `1`. -/
theorem run_sequential_example :
    processLine 3 "RUN"
        (processAll [(0, "20 PRINT X"), (0, "10 LET X = 1"), (0, "30 REM")] (Session.initial []))
      = (Outcome.returned,
          ⟨⟨[(10, "10 LET X = 1"), (20, "20 PRINT X"), (30, "30 REM")],
            [(10, Statement.Let (Expression.Compound "=" (Expression.Identifier "X")
                (Expression.Constant 1))),
              (20, Statement.Print (Expression.Identifier "X")), (30, Statement.Rem)],
            INT_MIN⟩, [("X", 1)], [], "1\n"⟩)
    ∧ runTrace 3 10 (processAll [(0, "20 PRINT X"), (0, "10 LET X = 1"), (0, "30 REM")]
        (Session.initial [])) = [10, 20, 30] :=
  ⟨rfl, rfl⟩

/-! ## Facts about the reading loops of IF -/

theorem readLhs_eq (scanner : TokenScanner) (depth : Int) (acc : List String) :
    readLhs scanner depth acc = readUntil isRelop scanner depth acc := by
  induction scanner generalizing depth acc with
  | nil => rfl
  | cons tok rest ih =>
    simp only [readLhs, readUntil, isRelop, ih]

theorem readRhs_eq (scanner : TokenScanner) (depth : Int) (acc : List String) :
    readRhs scanner depth acc
      = match readUntil isThen scanner depth acc with
        | .ok (_, toks, rest) => .ok (toks, rest)
        | .error e => .error e := by
  induction scanner generalizing depth acc with
  | nil => rfl
  | cons tok rest ih =>
    simp only [readRhs, readUntil, isThen, ih]
    split
    · rfl
    · split
      · rfl
      · split
        · split <;> rfl
        · split <;> rfl

theorem depthOf_cons (t : String) (r : List String) :
    depthOf (t :: r) = tokDepth t + depthOf r := rfl

theorem depthOf_append (a b : List String) : depthOf (a ++ b) = depthOf a + depthOf b := by
  induction a with
  | nil => simp [depthOf]
  | cons t ts ih =>
    rw [List.cons_append, depthOf_cons, depthOf_cons, ih]
    omega

theorem readsThrough_nil (isB : String → Bool) (d : Int) : ReadsThrough isB d [] := by
  intro pre tok post h
  simp at h

theorem readsThrough_cons (isB : String → Bool) (d : Int) (t : String) (mid : List String) :
    ReadsThrough isB d (t :: mid)
      ↔ (isUnrecognized t = false ∧ 0 ≤ d + tokDepth t ∧ ¬ (isB t = true ∧ d = 0))
        ∧ ReadsThrough isB (d + tokDepth t) mid := by
  constructor
  · intro h
    constructor
    · have h0 := h [] t mid rfl
      rw [List.nil_append, depthOf_cons] at h0
      simp only [depthOf, add_zero] at h0
      exact h0
    · intro pre tok post hm
      have h1 := h (t :: pre) tok post (by rw [hm]; rfl)
      rw [List.cons_append, depthOf_cons, depthOf_cons] at h1
      refine ⟨h1.1, ?_, ?_⟩
      · have := h1.2.1
        omega
      · intro hc
        apply h1.2.2
        refine ⟨hc.1, ?_⟩
        have := hc.2
        omega
  · rintro ⟨⟨h1, h2, h3⟩, h4⟩ pre tok post hm
    cases pre with
    | nil =>
      simp only [List.nil_append, List.cons.injEq] at hm
      obtain ⟨ht, _⟩ := hm
      subst ht
      rw [List.nil_append, depthOf_cons]
      simp only [depthOf, add_zero]
      exact ⟨h1, h2, h3⟩
    | cons p ps =>
      simp only [List.cons_append, List.cons.injEq] at hm
      obtain ⟨hp, hmid⟩ := hm
      subst hp
      have h5 := h4 ps tok post hmid
      rw [List.cons_append, depthOf_cons, depthOf_cons]
      refine ⟨h5.1, ?_, ?_⟩
      · have := h5.2.1
        omega
      · intro hc
        apply h5.2.2
        refine ⟨hc.1, ?_⟩
        have := hc.2
        omega

theorem readUntil_split (isB : String → Bool) (t tok : String) (ts toks rest acc : List String)
    (d : Int) :
    (∃ mid, t :: ts = mid ++ tok :: rest ∧ toks = acc ++ mid ∧ isB tok = true
        ∧ isUnrecognized tok = false ∧ d + depthOf mid = 0 ∧ ReadsThrough isB d mid)
    ↔ (t = tok ∧ ts = rest ∧ toks = acc ∧ isB tok = true ∧ isUnrecognized tok = false ∧ d = 0)
      ∨ ((isUnrecognized t = false ∧ 0 ≤ d + tokDepth t ∧ ¬ (isB t = true ∧ d = 0))
        ∧ ∃ mid, ts = mid ++ tok :: rest ∧ toks = (acc ++ [t]) ++ mid ∧ isB tok = true
            ∧ isUnrecognized tok = false ∧ (d + tokDepth t) + depthOf mid = 0
            ∧ ReadsThrough isB (d + tokDepth t) mid) := by
  constructor
  · rintro ⟨mid, h1, h2, h3, h4, h5, h6⟩
    cases mid with
    | nil =>
      left
      simp only [List.nil_append, List.cons.injEq] at h1
      simp only [depthOf, add_zero] at h5
      simp only [List.append_nil] at h2
      exact ⟨h1.1, h1.2, h2, h3, h4, h5⟩
    | cons m ms =>
      right
      simp only [List.cons_append, List.cons.injEq] at h1
      obtain ⟨hm, hts⟩ := h1
      subst hm
      rw [readsThrough_cons] at h6
      rw [depthOf_cons] at h5
      refine ⟨h6.1, ms, hts, ?_, h3, h4, ?_, h6.2⟩
      · rw [h2]
        simp
      · omega
  · rintro (⟨h1, h2, h3, h4, h5, h6⟩ | ⟨hh, mid, h1, h2, h3, h4, h5, h6⟩)
    · refine ⟨[], ?_, ?_, h4, h5, ?_, readsThrough_nil _ _⟩
      · rw [h1, h2]
        rfl
      · rw [h3]
        simp
      · simp only [depthOf, add_zero]
        exact h6
    · refine ⟨t :: mid, ?_, ?_, h3, h4, ?_, (readsThrough_cons _ _ _ _).mpr ⟨hh, h6⟩⟩
      · rw [h1]
        rfl
      · rw [h2]
        simp
      · rw [depthOf_cons]
        omega

theorem readUntil_ok_iff (isB : String → Bool) (hopen : isB "(" = false)
    (hclose : isB ")" = false) (scanner : TokenScanner) (d : Int) (hd : 0 ≤ d)
    (acc : List String) (tok : String) (toks rest : List String) :
    readUntil isB scanner d acc = .ok (tok, toks, rest)
      ↔ ∃ mid, scanner = mid ++ tok :: rest ∧ toks = acc ++ mid ∧ isB tok = true
          ∧ isUnrecognized tok = false ∧ d + depthOf mid = 0 ∧ ReadsThrough isB d mid := by
  induction scanner generalizing d acc with
  | nil => simp [readUntil]
  | cons t ts ih =>
    rw [readUntil_split]
    unfold readUntil
    by_cases hu : isUnrecognized t = true
    · simp only [hu, if_true]
      constructor
      · intro h
        simp at h
      · rintro (⟨h1, _, _, _, h5, _⟩ | ⟨hh, _⟩)
        · rw [h1] at hu
          exact absurd (h5.symm.trans hu) (by decide)
        · exact absurd hh.1 (by decide)
    · simp only [Bool.not_eq_true] at hu
      simp only [hu, Bool.false_eq_true, if_false]
      by_cases hopenTok : t = "("
      · subst hopenTok
        have htd : tokDepth "(" = 1 := rfl
        simp only [if_true, htd]
        rw [ih (d + 1) (by omega)]
        constructor
        · intro h
          right
          refine ⟨⟨trivial, by omega, ?_⟩, h⟩
          rw [hopen]
          simp
        · rintro (⟨h1, _, _, h4, _, _⟩ | ⟨_, h⟩)
          · rw [← h1, hopen] at h4
            simp at h4
          · exact h
      · simp only [hopenTok, if_false]
        by_cases hcloseTok : t = ")"
        · subst hcloseTok
          have htd : tokDepth ")" = -1 := rfl
          simp only [if_true, htd]
          by_cases hneg : d - 1 < 0
          · simp only [hneg, if_true]
            constructor
            · intro h
              simp at h
            · rintro (⟨h1, _, _, h4, _, _⟩ | ⟨hh, _⟩)
              · rw [← h1, hclose] at h4
                simp at h4
              · have := hh.2.1
                omega
          · simp only [hneg, if_false]
            have hsub : d - 1 = d + -1 := by omega
            rw [hsub, ih (d + -1) (by omega)]
            constructor
            · intro h
              right
              refine ⟨⟨trivial, by omega, ?_⟩, h⟩
              rw [hclose]
              simp
            · rintro (⟨h1, _, _, h4, _, _⟩ | ⟨_, h⟩)
              · rw [← h1, hclose] at h4
                simp at h4
              · exact h
        · simp only [hcloseTok, if_false]
          have htd : tokDepth t = 0 := by simp [tokDepth, hopenTok, hcloseTok]
          simp only [htd, add_zero]
          by_cases hb : (decide (d = 0) && isB t) = true
          · simp only [hb, if_true]
            simp only [Bool.and_eq_true, decide_eq_true_eq] at hb
            constructor
            · intro h
              simp only [Except.ok.injEq, Prod.mk.injEq] at h
              left
              obtain ⟨h1, h2, h3⟩ := h
              refine ⟨h1, h3, h2.symm, ?_, ?_, hb.1⟩
              · rw [← h1]
                exact hb.2
              · rw [← h1]
                exact hu
            · rintro (⟨h1, h2, h3, _, _, _⟩ | ⟨hh, _⟩)
              · rw [h1, h2, h3]
              · exact absurd ⟨hb.2, hb.1⟩ hh.2.2
          · simp only [hb, Bool.false_eq_true, if_false]
            rw [ih d hd]
            constructor
            · intro h
              right
              refine ⟨⟨trivial, hd, ?_⟩, h⟩
              intro hc
              apply hb
              simp [hc.1, hc.2]
            · rintro (⟨h1, _, _, h4, _, h6⟩ | ⟨_, h⟩)
              · exfalso
                apply hb
                rw [h1]
                simp [h4, h6]
              · exact h

/-! ## Every parse failure is a SYNTAX ERROR -/

theorem parse_error (fuel : Nat) :
    (∀ toks e, parseAssign fuel toks = .error e → e = "SYNTAX ERROR")
    ∧ (∀ toks e, parseAdd fuel toks = .error e → e = "SYNTAX ERROR")
    ∧ (∀ l toks e, parseAddRest fuel l toks = .error e → e = "SYNTAX ERROR")
    ∧ (∀ toks e, parseMul fuel toks = .error e → e = "SYNTAX ERROR")
    ∧ (∀ l toks e, parseMulRest fuel l toks = .error e → e = "SYNTAX ERROR")
    ∧ (∀ toks e, parsePrimary fuel toks = .error e → e = "SYNTAX ERROR") := by
  induction fuel with
  | zero =>
    refine ⟨?_, ?_, ?_, ?_, ?_, ?_⟩ <;> intros <;>
      simp_all [parseAssign, parseAdd, parseAddRest, parseMul, parseMulRest, parsePrimary]
  | succ n ih =>
    obtain ⟨ihA, ihAdd, ihAddR, ihMul, ihMulR, ihP⟩ := ih
    refine ⟨?_, ?_, ?_, ?_, ?_, ?_⟩
    · intro toks e h
      unfold parseAssign at h
      split at h
      · split at h
        · split at h
          · simp at h
          · rename_i e1 he
            simp only [Except.error.injEq] at h
            subst h
            exact ihA _ _ he
        · exact ihAdd _ _ h
      · exact ihAdd _ _ h
    · intro toks e h
      unfold parseAdd at h
      split at h
      · exact ihAddR _ _ _ h
      · rename_i e1 he
        simp only [Except.error.injEq] at h
        subst h
        exact ihMul _ _ he
    · intro l toks e h
      unfold parseAddRest at h
      split at h
      · split at h
        · split at h
          · exact ihAddR _ _ _ h
          · rename_i e1 he
            simp only [Except.error.injEq] at h
            subst h
            exact ihMul _ _ he
        · simp at h
      · simp at h
    · intro toks e h
      unfold parseMul at h
      split at h
      · exact ihMulR _ _ _ h
      · rename_i e1 he
        simp only [Except.error.injEq] at h
        subst h
        exact ihP _ _ he
    · intro l toks e h
      unfold parseMulRest at h
      split at h
      · split at h
        · split at h
          · exact ihMulR _ _ _ h
          · rename_i e1 he
            simp only [Except.error.injEq] at h
            subst h
            exact ihP _ _ he
        · simp at h
      · simp at h
    · intro toks e h
      unfold parsePrimary at h
      split at h
      · simp only [Except.error.injEq] at h
        exact h.symm
      · split at h
        · split at h
          · simp at h
          · simp only [Except.error.injEq] at h
            exact h.symm
        · split at h
          · simp at h
          · split at h
            · split at h
              · simp at h
              · simp only [Except.error.injEq] at h
                exact h.symm
              · rename_i e1 he
                simp only [Except.error.injEq] at h
                subst h
                exact ihA _ _ he
            · simp only [Except.error.injEq] at h
              exact h.symm

theorem parseExp_error (scanner : TokenScanner) (e : ErrorMsg)
    (h : parseExp scanner = .error e) : e = "SYNTAX ERROR" := by
  unfold parseExp at h
  split at h
  · simp at h
  · simp only [Except.error.injEq] at h
    exact h.symm
  · rename_i e1 he
    simp only [Except.error.injEq] at h
    subst h
    exact (parse_error _).1 _ _ he

theorem readUntil_error (isB : String → Bool) (scanner : TokenScanner) (d : Int)
    (acc : List String) (e : ErrorMsg) (h : readUntil isB scanner d acc = .error e) :
    e = "SYNTAX ERROR" := by
  induction scanner generalizing d acc with
  | nil =>
    simp only [readUntil, Except.error.injEq] at h
    exact h.symm
  | cons t ts ih =>
    unfold readUntil at h
    split at h
    · simp only [Except.error.injEq] at h
      exact h.symm
    · split at h
      · exact ih _ _ h
      · split at h
        · split at h
          · simp only [Except.error.injEq] at h
            exact h.symm
          · exact ih _ _ h
        · split at h
          · simp at h
          · exact ih _ _ h

theorem numberValue_error (tok : String) (e : ErrorMsg) (h : numberValue tok = .error e) :
    e = "SYNTAX ERROR" := by
  unfold numberValue at h
  split at h
  · simp at h
  · simp only [Except.error.injEq] at h
    exact h.symm

theorem nextToken_error (scanner : TokenScanner) (e : ErrorMsg)
    (h : nextToken scanner = .error e) : e = "SYNTAX ERROR" := by
  unfold nextToken at h
  split at h
  · simp at h
  · split at h
    · simp only [Except.error.injEq] at h
      exact h.symm
    · simp at h

theorem isRelop_recognized (op : String) (h : isRelop op = true) :
    isUnrecognized op = false := by
  simp only [isRelop, Bool.or_eq_true, decide_eq_true_eq] at h
  rcases h with (h | h) | h <;> subst h <;> decide

theorem isThen_recognized (tok : String) (h : isThen tok = true) :
    tok = "THEN" ∧ isUnrecognized tok = false := by
  simp only [isThen, decide_eq_true_eq] at h
  subst h
  exact ⟨rfl, by decide⟩

theorem number_recognized (tok : String) (h : getTokenType tok = TokenType.NUMBER) :
    isUnrecognized tok = false := by
  simp [isUnrecognized, h]

theorem readLhs_ok_iff (scanner : TokenScanner) (op : String) (lhsT rest : List String) :
    readLhs scanner 0 [] = .ok (op, lhsT, rest)
      ↔ scanner = lhsT ++ op :: rest ∧ isRelop op = true ∧ depthOf lhsT = 0
          ∧ ReadsThrough isRelop 0 lhsT := by
  rw [readLhs_eq, readUntil_ok_iff isRelop (by decide) (by decide) scanner 0 (le_refl _)]
  constructor
  · rintro ⟨mid, h1, h2, h3, _, h5, h6⟩
    simp only [List.nil_append] at h2
    subst h2
    exact ⟨h1, h3, by omega, h6⟩
  · rintro ⟨h1, h2, h3, h4⟩
    exact ⟨lhsT, h1, by simp, h2, isRelop_recognized op h2, by omega, h4⟩

theorem readRhs_ok_iff (scanner : TokenScanner) (rhsT rest : List String) :
    readRhs scanner 0 [] = .ok (rhsT, rest)
      ↔ scanner = rhsT ++ "THEN" :: rest ∧ depthOf rhsT = 0
          ∧ ReadsThrough isThen 0 rhsT := by
  rw [readRhs_eq]
  constructor
  · intro h
    split at h
    · rename_i tok toks rest1 hu
      simp only [Except.ok.injEq, Prod.mk.injEq] at h
      obtain ⟨h1, h2⟩ := h
      subst h1
      subst h2
      rw [readUntil_ok_iff isThen (by decide) (by decide) scanner 0 (le_refl _)] at hu
      obtain ⟨mid, h1, h2, h3, _, h5, h6⟩ := hu
      simp only [List.nil_append] at h2
      subst h2
      rw [(isThen_recognized tok h3).1] at h1
      exact ⟨h1, by omega, h6⟩
    · simp at h
  · rintro ⟨h1, h2, h3⟩
    have hu : readUntil isThen scanner 0 [] = .ok ("THEN", rhsT, rest) := by
      rw [readUntil_ok_iff isThen (by decide) (by decide) scanner 0 (le_refl _)]
      exact ⟨rhsT, h1, by simp, by decide, by decide, by omega, h3⟩
    rw [hu]

/-! ## C18: the constructor of IF -/

/-- The outcomes of the constructor of IF.  It succeeds exactly when the
tokens split as left side, relational operator, right side, `THEN`, one token
of class NUMBER, where the operator is the first of `=`, `<`, `>` standing at
parenthesis depth 0 and `THEN` is the first `THEN` after it standing at depth
0 (`ReadsThrough`: before them every token is recognised, no closing
parenthesis takes the depth below 0 and no other such token stands at depth
0), both sides parse as expressions and nothing follows the number; the
statement then holds the two parsed sides, the operator and the number.
Whatever it throws is SYNTAX ERROR.  It runs into the double deletion exactly
when the split exists and both sides parse but what follows `THEN` is not one
single token of class NUMBER (nothing, another kind of token, or more than one
token). -/
theorem if_constructor_outcomes (scanner : TokenScanner) :
    (∀ stmt, IfStatement scanner = .ok stmt ↔
      ∃ lhsT op rhsT tline L R v,
        scanner = lhsT ++ op :: (rhsT ++ ["THEN", tline])
        ∧ isRelop op = true ∧ depthOf lhsT = 0 ∧ ReadsThrough isRelop 0 lhsT
        ∧ depthOf rhsT = 0 ∧ ReadsThrough isThen 0 rhsT
        ∧ getTokenType tline = TokenType.NUMBER
        ∧ parseExpFromTokens lhsT = .ok L ∧ parseExpFromTokens rhsT = .ok R
        ∧ numberValue tline = .ok v
        ∧ stmt = Statement.If L R op v)
    ∧ (∀ e, IfStatement scanner = .error e → e = "SYNTAX ERROR")
    ∧ (IfStatement scanner = .crash ↔
      ∃ lhsT op rhsT rest L R,
        scanner = lhsT ++ op :: (rhsT ++ "THEN" :: rest)
        ∧ isRelop op = true ∧ depthOf lhsT = 0 ∧ ReadsThrough isRelop 0 lhsT
        ∧ depthOf rhsT = 0 ∧ ReadsThrough isThen 0 rhsT
        ∧ parseExpFromTokens lhsT = .ok L ∧ parseExpFromTokens rhsT = .ok R
        ∧ (rest = [] ∨ ∃ t ts, rest = t :: ts ∧ isUnrecognized t = false
            ∧ (getTokenType t ≠ TokenType.NUMBER ∨ ts ≠ []))) := by
  refine ⟨?_, ?_, ?_⟩
  · intro stmt
    constructor
    · intro h
      unfold IfStatement at h
      split at h
      · simp at h
      · rename_i op lhsT scanner1 hlhs
        split at h
        · simp at h
        · rename_i rhsT scanner2 hrhs
          split at h
          · simp at h
          · rename_i L hL
            split at h
            · simp at h
            · rename_i R hR
              split at h
              · simp at h
              · rename_i tline scanner3 hnt
                split at h
                · simp at h
                · rename_i htl
                  split at h
                  · simp at h
                  · rename_i hmore
                    split at h
                    · rename_i v hv
                      simp only [Result.ok.injEq] at h
                      simp only [Bool.or_eq_true, decide_eq_true_eq, not_or, ne_eq,
                        not_not] at htl
                      obtain ⟨hne, hnum⟩ := htl
                      rw [readLhs_ok_iff] at hlhs
                      rw [readRhs_ok_iff] at hrhs
                      obtain ⟨hs1, hop, hd1, hr1⟩ := hlhs
                      obtain ⟨hs2, hd2, hr2⟩ := hrhs
                      have hsc3 : scanner3 = [] := by
                        cases scanner3 with
                        | nil => rfl
                        | cons a b => simp [hasMoreTokens] at hmore
                      have hsc2 : scanner2 = [tline] := by
                        unfold nextToken at hnt
                        split at hnt
                        · simp only [Except.ok.injEq, Prod.mk.injEq] at hnt
                          exact absurd hnt.1.symm hne
                        · split at hnt
                          · simp at hnt
                          · simp only [Except.ok.injEq, Prod.mk.injEq] at hnt
                            rw [hnt.1, hnt.2, hsc3]
                      refine ⟨lhsT, op, rhsT, tline, L, R, v, ?_, hop, hd1, hr1, hd2, hr2, hnum, hL,
                        hR, hv, h.symm⟩
                      rw [hs1, hs2, hsc2]
                    · simp at h
    · rintro ⟨lhsT, op, rhsT, tline, L, R, v, hs, hop, hd1, hr1, hd2, hr2, hnum, hL, hR, hv, hst⟩
      have h1 : readLhs scanner 0 [] = .ok (op, lhsT, rhsT ++ ["THEN", tline]) :=
        (readLhs_ok_iff _ _ _ _).mpr ⟨hs, hop, hd1, hr1⟩
      have h2 : readRhs (rhsT ++ ["THEN", tline]) 0 [] = .ok (rhsT, [tline]) :=
        (readRhs_ok_iff _ _ _).mpr ⟨rfl, hd2, hr2⟩
      have h3 : nextToken [tline] = .ok (tline, []) := by
        simp [nextToken, number_recognized tline hnum]
      have hne : tline ≠ "" := getTokenType_number_ne_empty tline hnum
      simp [IfStatement, h1, h2, hL, hR, h3, hne, hnum, hasMoreTokens, hv, hst]
  · intro e h
    unfold IfStatement at h
    split at h
    · rename_i e1 he
      simp only [Result.error.injEq] at h
      subst h
      rw [readLhs_eq] at he
      exact readUntil_error _ _ _ _ _ he
    · split at h
      · rename_i e1 he
        simp only [Result.error.injEq] at h
        subst h
        rw [readRhs_eq] at he
        split at he
        · simp at he
        · rename_i e2 he2
          simp only [Except.error.injEq] at he
          subst he
          exact readUntil_error _ _ _ _ _ he2
      · split at h
        · rename_i e1 he
          simp only [Result.error.injEq] at h
          subst h
          exact parseExp_error _ _ he
        · split at h
          · rename_i e1 he
            simp only [Result.error.injEq] at h
            subst h
            exact parseExp_error _ _ he
          · split at h
            · rename_i e1 he
              simp only [Result.error.injEq] at h
              subst h
              exact nextToken_error _ _ he
            · split at h
              · simp at h
              · split at h
                · simp at h
                · split at h
                  · simp at h
                  · rename_i e1 he
                    simp only [Result.error.injEq] at h
                    subst h
                    exact numberValue_error _ _ he
  · constructor
    · intro h
      unfold IfStatement at h
      split at h
      · simp at h
      · rename_i op lhsT scanner1 hlhs
        split at h
        · simp at h
        · rename_i rhsT scanner2 hrhs
          split at h
          · simp at h
          · rename_i L hL
            split at h
            · simp at h
            · rename_i R hR
              rw [readLhs_ok_iff] at hlhs
              rw [readRhs_ok_iff] at hrhs
              obtain ⟨hs1, hop, hd1, hr1⟩ := hlhs
              obtain ⟨hs2, hd2, hr2⟩ := hrhs
              refine ⟨lhsT, op, rhsT, scanner2, L, R, ?_, hop, hd1, hr1, hd2, hr2, hL, hR, ?_⟩
              · rw [hs1, hs2]
              · cases scanner2 with
                | nil => exact Or.inl rfl
                | cons t ts =>
                  right
                  refine ⟨t, ts, rfl, ?_⟩
                  cases hu : isUnrecognized t with
                  | true => simp [nextToken, hu] at h
                  | false =>
                    refine ⟨rfl, ?_⟩
                    by_cases hnum : getTokenType t = TokenType.NUMBER
                    · right
                      have hne : t ≠ "" := getTokenType_number_ne_empty t hnum
                      cases ts with
                      | nil =>
                        simp only [nextToken, hu, Bool.false_eq_true, if_false, hne, hnum,
                          hasMoreTokens] at h
                        simp at h
                        split at h <;> simp at h
                      | cons a b => simp
                    · exact Or.inl hnum
    · rintro ⟨lhsT, op, rhsT, rest, L, R, hs, hop, hd1, hr1, hd2, hr2, hL, hR, htail⟩
      have h1 : readLhs scanner 0 [] = .ok (op, lhsT, rhsT ++ "THEN" :: rest) :=
        (readLhs_ok_iff _ _ _ _).mpr ⟨hs, hop, hd1, hr1⟩
      have h2 : readRhs (rhsT ++ "THEN" :: rest) 0 [] = .ok (rhsT, rest) :=
        (readRhs_ok_iff _ _ _).mpr ⟨rfl, hd2, hr2⟩
      rcases htail with hnil | ⟨t, ts, ht, hu, hbad⟩
      · subst hnil
        simp [IfStatement, h1, h2, hL, hR, nextToken]
      · subst ht
        rcases hbad with hnum | hts
        · simp [IfStatement, h1, h2, hL, hR, nextToken, hu, hnum]
        · cases ts with
          | nil => exact absurd rfl hts
          | cons a b =>
            by_cases hc : t = "" ∨ getTokenType t ≠ TokenType.NUMBER
            · simp [IfStatement, h1, h2, hL, hR, nextToken, hu, hc]
            · simp [IfStatement, h1, h2, hL, hR, nextToken, hu, hc, hasMoreTokens]

/-- Instances of the outcomes of the constructor of IF: in
`( A = 1 ) + B < ( 3 ) THEN 40` the `=` inside the parentheses is not the
boundary and the operator is `<`; without an operator at depth 0, with a
closing parenthesis too many, or without `THEN`, SYNTAX ERROR is thrown. -/
theorem if_constructor_example :
    IfStatement (setInput "( A = 1 ) + B < ( 3 ) THEN 40")
      = .ok (Statement.If
          (Expression.Compound "+"
            (Expression.Compound "=" (Expression.Identifier "A") (Expression.Constant 1))
            (Expression.Identifier "B"))
          (Expression.Constant 3) "<" 40)
    ∧ IfStatement (setInput "1 THEN 2") = .error "SYNTAX ERROR"
    ∧ IfStatement (setInput "1 ) = 2 THEN 3") = .error "SYNTAX ERROR"
    ∧ IfStatement (setInput "1 = 2") = .error "SYNTAX ERROR"
    ∧ IfStatement (setInput "1 + = 2 THEN 3") = .error "SYNTAX ERROR" :=
  ⟨rfl, rfl, rfl, rfl, rfl⟩

/-- C18: the claim asks for SYNTAX ERROR when the token after `THEN` is not a
single NUMBER or when tokens remain after it.  On `1 = 2 THEN X`,
`1 = 2 THEN 3 4` and `1 = 2 THEN` the constructor has built both sides, runs
`delete L; delete R; error("SYNTAX ERROR")` and lands in `catch (...)`, which
deletes both sides again: the outcome is the double deletion, not the error. -/
theorem if_constructor_double_free :
    IfStatement (setInput "1 = 2 THEN X") = .crash
    ∧ IfStatement (setInput "1 = 2 THEN 3 4") = .crash
    ∧ IfStatement (setInput "1 = 2 THEN") = .crash
    ∧ IfStatement (setInput "1 = 2 THEN X") ≠ .error "SYNTAX ERROR"
    ∧ IfStatement (setInput "1 = 2 THEN 3 4") ≠ .error "SYNTAX ERROR" := by
  have h1 : IfStatement (setInput "1 = 2 THEN X") = .crash := rfl
  have h2 : IfStatement (setInput "1 = 2 THEN 3 4") = .crash := rfl
  refine ⟨h1, h2, rfl, ?_, ?_⟩
  · rw [h1]
    exact fun h => Result.noConfusion h
  · rw [h2]
    exact fun h => Result.noConfusion h

end Basic
